import Mathlib

/-!
Clash.Meta core: share-link decoder, gRPC framing, sniffer dispatcher.

A shallow embedding of three pieces of the repository:

* `common/convert/v.go`      : `handleVShareLink`
* `transport/gun/gun.go`     : `Conn.Write`, `Conn.Read`
* `component/sniffer/dispatcher.go` : `TCPSniff`, `sniffDomain`,
  `replaceDomain`, `cacheSniffFailed`

Go maps are association lists, byte strings are lists of naturals, machine
integers are naturals or integers with the width made explicit. The
definitions come first, namespace by namespace (`Convert`, `Gun`, `Dispatch`),
then the lemmas and theorems in the same order.
-/

namespace ClashMeta

/-! ## Go maps as association lists -/

/-- Lookup `m[k]` in a Go map. -/
def mapGet {α : Type} : List (String × α) → String → Option α
  | [], _ => none
  | (k', v) :: rest, k => if k' = k then some v else mapGet rest k

/-- Assignment `m[k] = v` in a Go map. -/
def mapSet {α : Type} : List (String × α) → String → α → List (String × α)
  | [], k, v => [(k, v)]
  | (k', v') :: rest, k, v =>
    if k' = k then (k, v) :: rest else (k', v') :: mapSet rest k v

/-- Removal `delete(m, k)` from a Go map. -/
def mapDelete {α : Type} : List (String × α) → String → List (String × α)
  | [], _ => []
  | (k', v') :: rest, k =>
    if k' = k then mapDelete rest k else (k', v') :: mapDelete rest k

/-! ## Strings (`strings`, `strconv`) -/

/-- The `strings.ToLower` of Go, on the ASCII range: the letters `A` to `Z`
are mapped and every other character is kept, where Go also maps the upper
case letters outside ASCII. The two agree on every ASCII string. On another
string they can differ only where the argument has a character outside ASCII,
and Go maps none of those to a letter of the words the code compares the
result with (`tls`, `http`, `tcp`, `ws`, `grpc`): the tests on the result come
out the same, and what differs is the stored text of such a value. -/
def toLower (s : String) : String := String.mk (s.data.map Char.toLower)

/-- The `strings.HasSuffix` of Go. -/
def hasSuffix (s suffix : String) : Bool := suffix.data.isSuffixOf s.data

/-- Value of a run of decimal digits, `none` on any other character. -/
def parseDigits : List Char → Nat → Option Nat
  | [], acc => some acc
  | c :: cs, acc =>
    if c.isDigit then parseDigits cs (acc * 10 + (c.toNat - 48)) else none

/-- The `strconv.Atoi` of Go on a 64-bit platform: an optional sign, at least
one decimal digit, and a value inside the range of `int`. -/
def Atoi (s : String) : Option Int :=
  match s.data with
  | [] => none
  | '-' :: ds =>
    if ds.isEmpty then none else
    match parseDigits ds 0 with
    | some n => if n ≤ 2 ^ 63 then some (-(n : Int)) else none
    | none => none
  | '+' :: ds =>
    if ds.isEmpty then none else
    match parseDigits ds 0 with
    | some n => if n < 2 ^ 63 then some (n : Int) else none
    | none => none
  | ds =>
    match parseDigits ds 0 with
    | some n => if n < 2 ^ 63 then some (n : Int) else none
    | none => none

/-- The `strconv.ParseUint(s, 10, 16)` of Go: decimal digits only, at least
one, value below `2 ^ 16`. -/
def ParseUint16 (s : String) : Option Nat :=
  match s.data with
  | [] => none
  | ds =>
    match parseDigits ds 0 with
    | some n => if n < 2 ^ 16 then some n else none
    | none => none

namespace Convert

/-! ## `common/convert/v.go` -/

/-- Values of the `headers` maps: a string (`ws`) or a `[]string`. -/
inductive HVal where
  | str (s : String)
  | strs (l : List String)
  deriving DecidableEq, Repr

/-- Values of the per-transport option maps. -/
inductive OVal where
  | str (s : String)
  | int (i : Int)
  | strs (l : List String)
  | headers (h : List (String × HVal))
  deriving DecidableEq, Repr

/-- Values of the `proxy` map. -/
inductive PVal where
  | str (s : String)
  | int (i : Int)
  | bool (b : Bool)
  | opts (o : List (String × OVal))
  deriving DecidableEq, Repr

/-- The parts of a `*url.URL` that `handleVShareLink` reads: the results of
`Hostname()`, `Port()`, `User.Username()`, the fragment and `Query()`. -/
structure URL where
  Fragment : String
  Hostname : String
  Port : String
  Username : String
  Query : List (String × List String)
  deriving DecidableEq, Repr

/-- The `url.Values.Get`: first value of the key, or the empty string. -/
def queryGet (q : List (String × List String)) (key : String) : String :=
  match mapGet q key with
  | some (v :: _) => v
  | _ => ""

/-- The two error returns of `handleVShareLink`. -/
inductive ShareLinkError where
  | hostnameEmpty
  | badEarlyData
  deriving DecidableEq, Repr

/-- What a call leaves behind: the mutated `proxy` and `names` maps and the
returned error (`none` is `nil`). -/
structure Outcome where
  proxy : List (String × PVal)
  names : List (String × Int)
  err : Option ShareLinkError

/-- The `case "tcp"` arm of the transport switch. -/
def tcpArm (query : List (String × List String)) (fakeType : String)
    (proxy : List (String × PVal)) : List (String × PVal) :=
  if fakeType ≠ "none" then
    let headers : List (String × HVal) := []
    let httpOpts : List (String × OVal) := []
    let httpOpts := mapSet httpOpts "path" (OVal.strs ["/"])
    let headers :=
      if queryGet query "host" ≠ "" then
        mapSet headers "Host" (HVal.strs [queryGet query "host"])
      else headers
    let httpOpts :=
      if queryGet query "method" ≠ "" then
        mapSet httpOpts "method" (OVal.str (queryGet query "method"))
      else httpOpts
    let httpOpts :=
      if queryGet query "path" ≠ "" then
        mapSet httpOpts "path" (OVal.strs [queryGet query "path"])
      else httpOpts
    let httpOpts := mapSet httpOpts "headers" (OVal.headers headers)
    mapSet proxy "http-opts" (PVal.opts httpOpts)
  else proxy

/-- The `case "http"` arm of the transport switch. -/
def httpArm (query : List (String × List String))
    (proxy : List (String × PVal)) : List (String × PVal) :=
  let headers : List (String × HVal) := []
  let h2Opts : List (String × OVal) := []
  let h2Opts := mapSet h2Opts "path" (OVal.strs ["/"])
  let h2Opts :=
    if queryGet query "path" ≠ "" then
      mapSet h2Opts "path" (OVal.strs [queryGet query "path"])
    else h2Opts
  let h2Opts :=
    if queryGet query "host" ≠ "" then
      mapSet h2Opts "host" (OVal.strs [queryGet query "host"])
    else h2Opts
  let h2Opts := mapSet h2Opts "headers" (OVal.headers headers)
  mapSet proxy "h2-opts" (PVal.opts h2Opts)

/-- The `case "ws"` arm of the transport switch; `ua` is what
`RandUserAgent()` returned. The error return leaves `proxy` as it was. -/
def wsArm (ua : String) (query : List (String × List String))
    (proxy : List (String × PVal)) : List (String × PVal) × Option ShareLinkError :=
  let headers : List (String × HVal) := []
  let wsOpts : List (String × OVal) := []
  let headers := mapSet headers "User-Agent" (HVal.str ua)
  let headers := mapSet headers "Host" (HVal.str (queryGet query "host"))
  let wsOpts := mapSet wsOpts "path" (OVal.str (queryGet query "path"))
  let wsOpts := mapSet wsOpts "headers" (OVal.headers headers)
  let earlyData := queryGet query "ed"
  let step : Option (List (String × OVal)) :=
    if earlyData ≠ "" then
      match Atoi earlyData with
      | none => none
      | some med => some (mapSet wsOpts "max-early-data" (OVal.int med))
    else some wsOpts
  match step with
  | none => (proxy, some ShareLinkError.badEarlyData)
  | some wsOpts =>
    let wsOpts :=
      if queryGet query "eh" ≠ "" then
        mapSet wsOpts "early-data-header-name" (OVal.str (queryGet query "eh"))
      else wsOpts
    (mapSet proxy "ws-opts" (PVal.opts wsOpts), none)

/-- The `case "grpc"` arm of the transport switch. -/
def grpcArm (query : List (String × List String))
    (proxy : List (String × PVal)) : List (String × PVal) :=
  let grpcOpts : List (String × OVal) := []
  let grpcOpts := mapSet grpcOpts "grpc-service-name" (OVal.str (queryGet query "serviceName"))
  mapSet proxy "grpc-opts" (PVal.opts grpcOpts)

/-- Lines 51 to 60: the transport that ends up in `proxy["network"]`. -/
def resolveNetwork (query : List (String × List String)) : String :=
  let network := toLower (queryGet query "type")
  let network := if network = "" then "tcp" else network
  let fakeType := toLower (queryGet query "headerType")
  if fakeType = "http" then "http"
  else if network = "http" then "h2"
  else network

/-- Lines 19 to 23: the `port` entry. -/
def setPort (url : URL) (proxy : List (String × PVal)) : List (String × PVal) :=
  if url.Port = "" then mapSet proxy "port" (PVal.str url.Port)
  else mapSet proxy "port" (PVal.int 443)

/-- Lines 29 to 38: the `tls` and `client-fingerprint` entries. -/
def setSecurity (query : List (String × List String))
    (proxy : List (String × PVal)) : List (String × PVal) :=
  let proxy := mapSet proxy "tls" (PVal.bool false)
  let tls := toLower (queryGet query "security")
  if hasSuffix tls "tls" then
    let proxy := mapSet proxy "tls" (PVal.bool true)
    if queryGet query "fp" = "" then
      mapSet proxy "client-fingerprint" (PVal.str "chrome")
    else
      mapSet proxy "client-fingerprint" (PVal.str (queryGet query "fp"))
  else proxy

/-- Lines 39 to 41: the `servername` entry. -/
def setServerName (query : List (String × List String))
    (proxy : List (String × PVal)) : List (String × PVal) :=
  if queryGet query "sni" ≠ "" then
    mapSet proxy "servername" (PVal.str (queryGet query "sni"))
  else proxy

/-- Lines 43 to 49: the switch on `packetEncoding`. -/
def setPacketEncoding (query : List (String × List String))
    (proxy : List (String × PVal)) : List (String × PVal) :=
  let packetEncoding := queryGet query "packetEncoding"
  if packetEncoding = "none" then proxy
  else if packetEncoding = "packet" then mapSet proxy "packet-addr" (PVal.bool true)
  else mapSet proxy "xudp" (PVal.bool true)

/-- Lines 62 to 122: the switch on the resolved `network`. -/
def transportSwitch (ua : String) (query : List (String × List String))
    (fakeType network : String) (proxy : List (String × PVal)) :
    List (String × PVal) × Option ShareLinkError :=
  if network = "tcp" then (tcpArm query fakeType proxy, none)
  else if network = "http" then (httpArm query proxy, none)
  else if network = "ws" then wsArm ua query proxy
  else if network = "grpc" then (grpcArm query proxy, none)
  else (proxy, none)

/-- The `handleVShareLink` of `common/convert/v.go`. The helper `uniqueName`
(its file is not part of the sources at hand) and the string `ua` that
`RandUserAgent()` returns are parameters. -/
def handleVShareLink
    (uniqueName : List (String × Int) → String → String × List (String × Int))
    (ua : String) (names : List (String × Int)) (url : URL) (scheme : String)
    (proxy : List (String × PVal)) : Outcome :=
  let query := url.Query
  let named := uniqueName names url.Fragment
  let names := named.2
  let proxy := mapSet proxy "name" (PVal.str named.1)
  if url.Hostname = "" then
    { proxy := proxy, names := names, err := some ShareLinkError.hostnameEmpty }
  else
    let proxy := setPort url proxy
    let proxy := mapSet proxy "type" (PVal.str scheme)
    let proxy := mapSet proxy "server" (PVal.str url.Hostname)
    let proxy := mapSet proxy "uuid" (PVal.str url.Username)
    let proxy := mapSet proxy "udp" (PVal.bool true)
    let proxy := mapSet proxy "skip-cert-verify" (PVal.bool false)
    let proxy := setSecurity query proxy
    let proxy := setServerName query proxy
    let proxy := setPacketEncoding query proxy
    let fakeType := toLower (queryGet query "headerType")
    let network := resolveNetwork query
    let proxy := mapSet proxy "network" (PVal.str network)
    let switched := transportSwitch ua query fakeType network proxy
    { proxy := switched.1, names := names, err := switched.2 }

/-- A stand-in for `uniqueName` in examples: the name is kept as it is. -/
def keepName (names : List (String × Int)) (name : String) : String × List (String × Int) :=
  (name, mapSet names name 0)

/-- The keys of the four per-transport option records. -/
def optsKeys : List String := ["http-opts", "h2-opts", "ws-opts", "grpc-opts"]

/-- The map handed to the transport switch, for a non-empty hostname. -/
def beforeSwitch
    (uniqueName : List (String × Int) → String → String × List (String × Int))
    (names : List (String × Int)) (url : URL) (scheme : String)
    (proxy : List (String × PVal)) : List (String × PVal) :=
  mapSet
    (setPacketEncoding url.Query (setServerName url.Query (setSecurity url.Query
      (mapSet (mapSet (mapSet (mapSet (mapSet
        (setPort url (mapSet proxy "name" (PVal.str (uniqueName names url.Fragment).1)))
        "type" (PVal.str scheme)) "server" (PVal.str url.Hostname))
        "uuid" (PVal.str url.Username)) "udp" (PVal.bool true))
        "skip-cert-verify" (PVal.bool false)))))
    "network" (PVal.str (resolveNetwork url.Query))

end Convert

namespace Gun

/-! ## `transport/gun/gun.go`

Bytes are naturals below 256, a byte string is a `List Nat`. The buffered
reader over the response body is the list of bytes still to come. -/

/-- The `binary.MaxVarintLen64` of Go. -/
def MaxVarintLen64 : Nat := 10

/-- The `binary.PutUvarint(buf, x)` of Go, `x` a `uint64`: the buffer after
the call and the number of bytes written; `none` when the buffer is too short
(Go panics on the index). -/
def PutUvarint : List Nat → Nat → Option (List Nat × Nat)
  | [], _ => none
  | _ :: rest, x =>
    if x ≥ 0x80 then
      match PutUvarint rest (x >>> 7) with
      | some (rest', n) => some (((x % 256) ||| 0x80) :: rest', n + 1)
      | none => none
    else some ((x % 256) :: rest, 1)

/-- The `binary.BigEndian.PutUint32` of Go, `v` a `uint32`. -/
def PutUint32 (v : Nat) : List Nat :=
  [(v >>> 24) % 256, (v >>> 16) % 256, (v >>> 8) % 256, v % 256]

/-- The errors a read can return. -/
inductive Err where
  | init
  | closed
  | eof
  | unexpectedEOF
  | overflow
  | invalidLength
  deriving DecidableEq, Repr

/-- The loop of `binary.ReadUvarint`: `i` bytes read so far, `x` the value
accumulated (a `uint64`), `s` the shift. Returns the bytes left in the reader,
the value and the error (`none` is `nil`). -/
def readUvarintLoop : List Nat → Nat → Nat → Nat → List Nat × Nat × Option Err
  | [], i, x, _ =>
    if i < MaxVarintLen64 then ([], x, some (if i > 0 then Err.unexpectedEOF else Err.eof))
    else ([], x, some Err.overflow)
  | b :: rest, i, x, s =>
    if i < MaxVarintLen64 then
      if b < 0x80 then
        if i = MaxVarintLen64 - 1 ∧ b > 1 then (rest, x, some Err.overflow)
        else (rest, (x ||| ((b <<< s) % 2 ^ 64)) % 2 ^ 64, none)
      else readUvarintLoop rest (i + 1) ((x ||| (((b &&& 0x7f) <<< s) % 2 ^ 64)) % 2 ^ 64) (s + 7)
    else (b :: rest, x, some Err.overflow)

/-- The `binary.ReadUvarint` of Go on a byte reader. -/
def ReadUvarint (br : List Nat) : List Nat × Nat × Option Err :=
  readUvarintLoop br 0 0 0

/-- The `bufio.Reader.Discard(n)`: the reader afterwards and the error. -/
def Discard (br : List Nat) (n : Nat) : List Nat × Option Err :=
  if n ≤ br.length then (br.drop n, none) else ([], some Err.eof)

/-- The `io.ReadFull(br, buf)` with `len(buf) = size`: the bytes stored in
`buf` (their number is the `n` returned), the error, the reader afterwards. -/
def ReadFull (br : List Nat) (size : Nat) : List Nat × Option Err × List Nat :=
  if size ≤ br.length then (br.take size, none, br.drop size)
  else if br.length = 0 then ([], some Err.eof, [])
  else (br, some Err.unexpectedEOF, [])

/-- Conversion `int(x)` of a `uint64` on a 64-bit platform. -/
def toInt (x : Nat) : Int :=
  if x % 2 ^ 64 < 2 ^ 63 then ((x % 2 ^ 64 : Nat) : Int) else ((x % 2 ^ 64 : Nat) : Int) - 2 ^ 64

/-- The fields of `Conn` that `Read` and `Write` use. `roundTrip` is what
`transport.RoundTrip` answers when the request is issued: `none` for an error,
`some body` for a response with that body. `written` lists the byte strings
handed to the pipe writer, oldest first. -/
structure Conn where
  roundTrip : Option (List Nat)
  onceDone : Bool
  close : Bool
  hasResponse : Bool
  err : Bool
  remain : Int
  br : List Nat
  written : List (List Nat)
  writerClosed : Bool
  deriving DecidableEq, Repr

/-- The `initRequest` of `Conn`. -/
def Conn.initRequest (g : Conn) : Conn :=
  match g.roundTrip with
  | none => { g with err := true, writerClosed := true }
  | some body =>
    if !g.close then { g with hasResponse := true, br := body }
    else g

/-- The `g.once.Do(g.initRequest)`. -/
def Conn.onceInit (g : Conn) : Conn :=
  if g.onceDone then g else { g.initRequest with onceDone := true }

/-- What a call of `Read` does: it returns `n`, the bytes `data` stored in
`b[:n]` and an error, or it panics on a slice bound. -/
inductive ReadResult where
  | ret (n : Nat) (data : List Nat) (err : Option Err) (g : Conn)
  | panic (g : Conn)
  deriving DecidableEq, Repr

/-- The `Conn.Read(b)` with `len(b) = lenb`. -/
def Conn.Read (g0 : Conn) (lenb : Nat) : ReadResult :=
  let g := g0.onceInit
  if g.err then .ret 0 [] (some Err.init) g
  else if g.remain > 0 then
    let size : Int := if (lenb : Int) < g.remain then (lenb : Int) else g.remain
    let r := ReadFull g.br size.toNat
    .ret r.1.length r.1 r.2.1 { g with remain := g.remain - (r.1.length : Int), br := r.2.2 }
  else if !g.hasResponse then .ret 0 [] (some Err.closed) g
  else
    match Discard g.br 6 with
    | (br1, some e) => .ret 0 [] (some e) { g with br := br1 }
    | (br1, none) =>
      match ReadUvarint br1 with
      | (br2, _, some _) => .ret 0 [] (some Err.invalidLength) { g with br := br2 }
      | (br2, protobufPayloadLen, none) =>
        let size : Int :=
          if (lenb : Int) < toInt protobufPayloadLen then (lenb : Int)
          else toInt protobufPayloadLen
        if size < 0 then .panic { g with br := br2 }
        else
          let r := ReadFull br2 size.toNat
          match r.2.1 with
          | some e => .ret r.1.length r.1 (some e) { g with br := r.2.2 }
          | none =>
            let remain : Int := toInt protobufPayloadLen - (r.1.length : Int)
            if remain > 0 then .ret r.1.length r.1 none { g with br := r.2.2, remain := remain }
            else .ret r.1.length r.1 none { g with br := r.2.2 }

/-- The `Conn.Write(b)`: the connection afterwards (one more byte string handed
to the pipe writer) and the `n` returned; `none` when `PutUvarint` panics. -/
def Conn.Write (g : Conn) (b : List Nat) : Option (Conn × Nat) :=
  let protobufHeader : List Nat := 0x0A :: List.replicate MaxVarintLen64 0
  match PutUvarint (protobufHeader.drop 1) (b.length % 2 ^ 64) with
  | none => none
  | some (tail, varuintSize) =>
    let protobufHeader := protobufHeader.take 1 ++ tail
    let grpcHeader : List Nat := List.replicate 5 0
    let grpcPayloadLen := (varuintSize + 1 + b.length) % 2 ^ 32
    let grpcHeader := grpcHeader.take 1 ++ PutUint32 grpcPayloadLen
    let buf := grpcHeader ++ protobufHeader.take (varuintSize + 1) ++ b
    some ({ g with written := g.written ++ [buf] }, b.length)

/-- Unsigned LEB128 of a natural, least significant group first; `fuel`
bounds the number of groups. -/
def uleb128Fuel : Nat → Nat → List Nat
  | 0, n => [n]
  | fuel + 1, n => if n < 128 then [n] else (n % 128 + 128) :: uleb128Fuel fuel (n / 128)

/-- Unsigned LEB128 varint of a natural. -/
def uleb128 (n : Nat) : List Nat := uleb128Fuel n n

/-- Number of bytes of the varint of a natural: one per group of seven bits. -/
def varintLenFuel : Nat → Nat → Nat
  | 0, _ => 1
  | fuel + 1, n => if n < 128 then 1 else varintLenFuel fuel (n / 128) + 1

/-- Length of the varint of a natural. -/
def varintLen (n : Nat) : Nat := varintLenFuel n n

/-- Value of a byte string read as a big-endian number. -/
def beValue (bytes : List Nat) : Nat := bytes.foldl (fun acc b => acc * 256 + b) 0

/-- The frame of a payload `b` of length `L`: `0x00`, the four bytes of
`uint32(varintLen L + 1 + L)`, `0x0A`, the varint of `L`, the payload. -/
def frame (b : List Nat) : List Nat :=
  [0x00] ++ PutUint32 ((varintLen b.length + 1 + b.length) % 2 ^ 32) ++ [0x0A]
    ++ uleb128 b.length ++ b

/-- A connection before its first use, whose request will be answered with
the given response body. -/
def Conn.fresh (body : List Nat) : Conn :=
  { roundTrip := some body, onceDone := false, close := false, hasResponse := false,
    err := false, remain := 0, br := [], written := [], writerClosed := false }

/-- Successive `Write` calls, one per payload. -/
def writeAll : Conn → List (List Nat) → Option Conn
  | g, [] => some g
  | g, b :: rest =>
    match g.Write b with
    | none => none
    | some (g', _) => writeAll g' rest

/-- How a run of reads ends. -/
inductive Stop where
  | err (e : Err)
  | panic
  | fuel
  deriving DecidableEq, Repr

/-- Repeated `Read` calls with a buffer of `lenb` bytes, up to the first one
that returns an error: the bytes returned, in order, and how the run ended. -/
def readUntilError : Nat → Conn → Nat → List Nat × Stop
  | 0, _, _ => ([], Stop.fuel)
  | fuel + 1, g, lenb =>
    match g.Read lenb with
    | .panic _ => ([], Stop.panic)
    | .ret _ data (some e) _ => (data, Stop.err e)
    | .ret _ data none g' =>
      ((data ++ (readUntilError fuel g' lenb).1), (readUntilError fuel g' lenb).2)

/-- A reader in good standing: the request has been answered with a response,
`remain` is the length of `d`, the part of the current payload not yet
delivered, and the reader holds `d` followed by the frames of `ps`. -/
def Conn.Holds (g : Conn) (d : List Nat) (ps : List (List Nat)) : Prop :=
  g.onceDone = true ∧ g.err = false ∧ g.hasResponse = true
    ∧ g.remain = (d.length : Int) ∧ g.br = d ++ (ps.map frame).flatten

/-- Modelled from the spec: the `UVarintLen` of the `gun` package, whose file
is not part of the sources at hand: the number of bytes of the varint of a
`uint64` (`varintLen(L)`). -/
def UVarintLen (x : Nat) : Nat := varintLen (x % 2 ^ 64)

/-- Modelled from the spec: the `buf.Buffer` of the repository, whose file is
not part of the sources at hand, as far as `WriteBuffer` uses it: `front` is the
front headroom, the reserved bytes before the data, whatever they hold, and
`data` is what `Bytes()` returns. -/
structure Buffer where
  front : List Nat
  data : List Nat
  deriving DecidableEq, Repr

/-- Modelled from the spec: `Buffer.ExtendHeader(n)`, the data grows by `n`
bytes at its front, taken from the headroom ("writers that can prepend
bytes"); `none` when the headroom is shorter than `n`, where the call panics. -/
def Buffer.ExtendHeader (b : Buffer) (n : Nat) : Option Buffer :=
  if n ≤ b.front.length then
    some { front := b.front.take (b.front.length - n),
           data := b.front.drop (b.front.length - n) ++ b.data }
  else none

/-- The `Conn.WriteBuffer(buffer)`: the connection afterwards, with one more
byte string handed to the pipe writer; `none` when the call panics. The
`header` slice is the first `6 + varLen` bytes of the extended buffer. -/
def Conn.WriteBuffer (g : Conn) (buffer : Buffer) : Option Conn :=
  let dataLen := buffer.data.length
  let varLen := UVarintLen (dataLen % 2 ^ 64)
  match buffer.ExtendHeader (6 + varLen) with
  | none => none
  | some extended =>
    let header := extended.data.take (6 + varLen)
    let header := header.set 0 0x00
    let header := header.take 1 ++ PutUint32 ((1 + varLen + dataLen) % 2 ^ 32) ++ header.drop 5
    let header := header.set 5 0x0A
    match PutUvarint (header.drop 6) (dataLen % 2 ^ 64) with
    | none => none
    | some (tail, _) =>
      let header := header.take 6 ++ tail
      some { g with written := g.written ++ [header ++ extended.data.drop (6 + varLen)] }

/-- The `Conn.FrontHeadroom()`. -/
def Conn.FrontHeadroom (_ : Conn) : Nat := 6 + MaxVarintLen64

/-- A response body that starts with a frame whose varint length is `2 ^ 63`:
five header bytes, the tag `0x0A`, the ten bytes of the varint, four bytes of
payload. -/
def hostileBody : List Nat :=
  [0x00, 0x00, 0x00, 0x00, 0x0F, 0x0A,
   0x80, 0x80, 0x80, 0x80, 0x80, 0x80, 0x80, 0x80, 0x80, 0x01,
   1, 2, 3, 4]

end Gun

namespace Dispatch

/-! ## `component/sniffer/dispatcher.go` -/

/-- Modelled from the spec: the `C.NetWork` of the `constant` package, whose
file is not part of the sources at hand (`supportNetwork() → {TCP, UDP, ALL}`). -/
inductive NetWork where
  | TCP
  | UDP
  | ALLNet
  deriving DecidableEq, Repr

/-- Modelled from the spec: the `C.DNSMode` of the `constant` package
(`dnsMode: {Normal, Mapping, FakeIP}`). -/
inductive DNSMode where
  | DNSNormal
  | DNSFakeIP
  | DNSMapping
  deriving DecidableEq, Repr

/-- Modelled from the spec: the `C.Metadata` record of the `constant` package,
with the fields of section 3 of the spec (`InType` is its `type`). Addresses and ports are kept in
their textual form, as `fmt.Sprintf("%s:%s", DstIP, DstPort)` prints them. -/
structure Metadata where
  NetWork : Dispatch.NetWork
  InType : String
  SrcIP : String
  SrcPort : String
  InIP : String
  InPort : String
  DstIP : String
  DstPort : String
  Host : String
  SniffHost : String
  DNSMode : Dispatch.DNSMode
  ProcessPath : String
  SpecialRules : String
  InName : String
  deriving DecidableEq, Repr

/-- Modelled from the spec: a registered sniffer, by the three methods of the
`sniffer.Sniffer` interface that the dispatcher calls; `SniffTCP` answers
`none` for an error. -/
structure Sniffer where
  Protocol : String
  SupportNetwork : NetWork
  SupportPort : Nat → Bool
  SniffTCP : List Nat → Option String

/-- Modelled from the spec: the `SnifferConfig` of a sniffer
(`sniffers: map<name, {overrideDest, ports}>`). -/
structure SnifferConfig where
  OverrideDest : Bool
  deriving DecidableEq, Repr

/-- Modelled from the spec: the skip-list, a `cache.LruCache[string, uint8]` of
capacity 128, most recently used entry first. Expiry by age (600 s) is an
event outside the calls and is the removal of an entry. -/
abbrev SkipList := List (String × Nat)

/-- Capacity of the skip-list (`cache.WithSize(128)`). -/
def skipListSize : Nat := 128

/-- Modelled from the spec: `LruCache.Get`, the value with the flag `ok` (the
zero value and `false` when the key is absent) and the cache afterwards, where
the entry found has become the most recently used. -/
def SkipList.Get (c : SkipList) (key : String) : (Nat × Bool) × SkipList :=
  match mapGet c key with
  | some v => ((v, true), (key, v) :: mapDelete c key)
  | none => ((0, false), c)

/-- Modelled from the spec: `LruCache.Set`, the entry becomes the most
recently used and the least recently used ones beyond the capacity are
evicted. -/
def SkipList.Set (c : SkipList) (key : String) (v : Nat) : SkipList :=
  ((key, v) :: mapDelete c key).take skipListSize

/-- Modelled from the spec: `LruCache.Delete`. -/
def SkipList.Delete (c : SkipList) (key : String) : SkipList :=
  mapDelete c key

/-- How a `Peek` on the connection fails: with a `*net.OpError` or with
another error. -/
inductive PeekErr where
  | opError
  | other
  deriving DecidableEq, Repr

/-- Modelled from the spec: the buffered peekable connection, as far as the
dispatcher sees it. `peek1` is how `Peek(1)` ends (`none` is success),
`buffered` the bytes `Peek(Buffered())` returns, `peekAllFails` whether that
second `Peek` returns an error; `peeks` counts the `Peek` calls made and
`closed` records `Close()`. -/
structure BufferedConn where
  peek1 : Option PeekErr
  buffered : List Nat
  peekAllFails : Bool
  peeks : Nat
  closed : Bool
  deriving DecidableEq, Repr

/-- A `net.Conn`: a `*N.BufferedConn` or any other connection. -/
inductive NetConn where
  | buffered (c : BufferedConn)
  | other
  deriving DecidableEq, Repr

/-- The `SnifferDispatcher`. The map `sniffers` is a list of its entries; the
tries answer whether `Search` finds the host. -/
structure SnifferDispatcher where
  enable : Bool
  sniffers : List (Sniffer × SnifferConfig)
  forceDomain : String → Bool
  skipSNI : String → Bool
  skipList : SkipList
  forceDnsMapping : Bool
  parsePureIp : Bool

/-- The key `fmt.Sprintf("%s:%s", metadata.DstIP, metadata.DstPort)`. -/
def dstKey (metadata : Metadata) : String :=
  metadata.DstIP ++ ":" ++ metadata.DstPort

/-- The `cacheSniffFailed` of the dispatcher, on the skip-list; the counter is
a `uint8`. -/
def cacheSniffFailed (skipList : SkipList) (metadata : Metadata) : SkipList :=
  let dst := dstKey metadata
  let got := skipList.Get dst
  let count := got.1.1
  let count := if count ≤ 5 then (count + 1) % 256 else count
  got.2.Set dst count

/-- The `replaceDomain` of the dispatcher. -/
def replaceDomain (metadata : Metadata) (host : String) (overrideDest : Bool) : Metadata :=
  let metadata := { metadata with SniffHost := host }
  let metadata := if overrideDest then { metadata with Host := host } else metadata
  { metadata with DNSMode := DNSMode.DNSNormal }

/-- The errors of `sniffDomain`: the error of `Peek(1)`, or `ErrorSniffFailed`. -/
inductive SniffErr where
  | peek (e : PeekErr)
  | sniffFailed
  deriving DecidableEq, Repr

/-- What `sniffDomain` returns and leaves behind. -/
structure SniffOutcome where
  host : String
  err : Option SniffErr
  conn : BufferedConn
  skipList : SkipList
  deriving DecidableEq, Repr

/-- The `sniffDomain` of the dispatcher: `range` is the order in which the
loop meets the entries of `sd.sniffers`, `parseAddrOk host` says whether
`netip.ParseAddr(host)` succeeds. -/
def sniffDomain (parseAddrOk : String → Bool) (metadata : Metadata) :
    List (Sniffer × SnifferConfig) → BufferedConn → SkipList → SniffOutcome
  | [], conn, skipList =>
    { host := "", err := some SniffErr.sniffFailed, conn := conn, skipList := skipList }
  | (s, _) :: rest, conn, skipList =>
    if s.SupportNetwork = NetWork.TCP then
      let conn := { conn with peeks := conn.peeks + 1 }
      match conn.peek1 with
      | some e =>
        if e = PeekErr.opError then
          { host := "", err := some (SniffErr.peek e), conn := { conn with closed := true },
            skipList := cacheSniffFailed skipList metadata }
        else
          { host := "", err := some (SniffErr.peek e), conn := conn, skipList := skipList }
      | none =>
        let conn := { conn with peeks := conn.peeks + 1 }
        if conn.peekAllFails then sniffDomain parseAddrOk metadata rest conn skipList
        else
          match s.SniffTCP conn.buffered with
          | none => sniffDomain parseAddrOk metadata rest conn skipList
          | some host =>
            if parseAddrOk host then sniffDomain parseAddrOk metadata rest conn skipList
            else { host := host, err := none, conn := conn, skipList := skipList }
    else sniffDomain parseAddrOk metadata rest conn skipList

/-- Lines 52 to 62 of `TCPSniff`: the loop that looks for a sniffer of network
TCP or ALL supporting the port; it returns `inWhitelist` and `overrideDest`. -/
def whitelistLoop (port : Nat) : List (Sniffer × SnifferConfig) → Bool → Bool × Bool
  | [], inWhitelist => (inWhitelist, false)
  | (sniffer, config) :: rest, inWhitelist =>
    if sniffer.SupportNetwork = NetWork.TCP ∨ sniffer.SupportNetwork = NetWork.ALLNet then
      if sniffer.SupportPort port then (true, config.OverrideDest)
      else whitelistLoop port rest false
    else whitelistLoop port rest inWhitelist

/-- The condition of line 45 of `TCPSniff`. -/
def eligible (sd : SnifferDispatcher) (metadata : Metadata) : Bool :=
  (metadata.Host = "" ∧ sd.parsePureIp) ∨ sd.forceDomain metadata.Host
    ∨ (metadata.DNSMode = DNSMode.DNSMapping ∧ sd.forceDnsMapping)

/-- What a call of `TCPSniff` leaves behind: the skip-list of the dispatcher,
the connection and the metadata record. -/
structure SniffState where
  skipList : SkipList
  conn : NetConn
  metadata : Metadata
  deriving DecidableEq, Repr

/-- The `TCPSniff` of the dispatcher. `range1` and `range2` are the orders in
which the loop of `TCPSniff` and the loop of `sniffDomain` meet the entries of
`sd.sniffers`. -/
def TCPSniff (parseAddrOk : String → Bool) (range1 range2 : List (Sniffer × SnifferConfig))
    (sd : SnifferDispatcher) (conn : NetConn) (metadata : Metadata) : SniffState :=
  match conn with
  | NetConn.other => { skipList := sd.skipList, conn := conn, metadata := metadata }
  | NetConn.buffered bufConn =>
    if eligible sd metadata then
      match ParseUint16 metadata.DstPort with
      | none => { skipList := sd.skipList, conn := conn, metadata := metadata }
      | some port =>
        let wl := whitelistLoop port range1 false
        let inWhitelist := wl.1
        let overrideDest := wl.2
        if !inWhitelist then { skipList := sd.skipList, conn := conn, metadata := metadata }
        else
          let dst := dstKey metadata
          let got := sd.skipList.Get dst
          if got.1.2 ∧ got.1.1 > 5 then
            { skipList := got.2, conn := conn, metadata := metadata }
          else
            let r := sniffDomain parseAddrOk metadata range2 bufConn got.2
            match r.err with
            | some _ =>
              { skipList := cacheSniffFailed r.skipList metadata,
                conn := NetConn.buffered r.conn, metadata := metadata }
            | none =>
              if sd.skipSNI r.host then
                { skipList := r.skipList, conn := NetConn.buffered r.conn, metadata := metadata }
              else
                { skipList := r.skipList.Delete dst, conn := NetConn.buffered r.conn,
                  metadata := replaceDomain metadata r.host overrideDest }
    else { skipList := sd.skipList, conn := conn, metadata := metadata }

/-- The skip-lists the dispatcher can hold: the empty one `cache.New` builds,
and what `cacheSniffFailed`, `Get`, `Delete` and the expiry or eviction of an
entry make of one. -/
inductive Reachable : SkipList → Prop where
  | new : Reachable []
  | failed (c : SkipList) (m : Metadata) : Reachable c → Reachable (cacheSniffFailed c m)
  | get (c : SkipList) (key : String) : Reachable c → Reachable (c.Get key).2
  | delete (c : SkipList) (key : String) : Reachable c → Reachable (c.Delete key)

/-- Every counter of the skip-list is at most 6. -/
def Bounded (c : SkipList) : Prop := ∀ p ∈ c, p.2 ≤ 6

/-- The skip-list after `n` successive `TCPSniff` calls for one destination,
each on a connection of its own that behaves as `conn`. -/
def repeatSniff (parseAddrOk : String → Bool) (range1 range2 : List (Sniffer × SnifferConfig))
    (sd : SnifferDispatcher) (conn : NetConn) (metadata : Metadata) : Nat → SkipList
  | 0 => sd.skipList
  | n + 1 =>
    (TCPSniff parseAddrOk range1 range2
      { sd with skipList := repeatSniff parseAddrOk range1 range2 sd conn metadata n }
      conn metadata).skipList

/-- The counter the skip-list holds for a key, 0 when the key is absent. -/
def counter (c : SkipList) (key : String) : Nat :=
  (mapGet c key).getD 0

/-- The TLS sniffer of the examples: it finds the host "target.example" in
any non-empty prefix and supports port 443. -/
def tlsSniffer : Sniffer :=
  { Protocol := "tls", SupportNetwork := NetWork.TCP, SupportPort := fun p => p == 443,
    SniffTCP := fun bytes => if bytes.isEmpty then none else some "target.example" }

/-- The metadata of the examples: `{host:"", dstIP:9.9.9.9, dstPort:443}`. -/
def exampleMetadata : Metadata :=
  { NetWork := NetWork.TCP, InType := "SOCKS5", SrcIP := "10.0.0.2", SrcPort := "50000",
    InIP := "127.0.0.1", InPort := "7890", DstIP := "9.9.9.9", DstPort := "443",
    Host := "", SniffHost := "", DNSMode := DNSMode.DNSNormal, ProcessPath := "",
    SpecialRules := "", InName := "" }

/-- The dispatcher of the examples: the TLS sniffer alone, `parsePureIp` on. -/
def exampleDispatcher (skipList : SkipList) (overrideDest : Bool) : SnifferDispatcher :=
  { enable := true, sniffers := [(tlsSniffer, { OverrideDest := overrideDest })],
    forceDomain := fun _ => false, skipSNI := fun _ => false, skipList := skipList,
    forceDnsMapping := false, parsePureIp := true }

/-- A connection on which `Peek(1)` fails with a `*net.OpError`. -/
def silentConn : BufferedConn :=
  { peek1 := some PeekErr.opError, buffered := [], peekAllFails := false, peeks := 0,
    closed := false }

/-- A connection that has sent bytes no sniffer recognises (the TLS sniffer of
the examples is given an empty prefix). -/
def opaqueConn : BufferedConn :=
  { peek1 := none, buffered := [], peekAllFails := false, peeks := 0, closed := false }

/-- A connection that has sent a ClientHello. -/
def helloConn : BufferedConn :=
  { peek1 := none, buffered := [22, 3, 1], peekAllFails := false, peeks := 0, closed := false }

/-- No host is an IP literal: a stand-in for `netip.ParseAddr` in examples. -/
def noIP (_ : String) : Bool := false

/-- The call of `TCPSniff` passes every gate and sniffs the host `h`: the
connection is buffered, the metadata is eligible, the port parses and a sniffer
of network TCP or ALL supports it, the skip-list counter is at most 5,
`sniffDomain` returns `h` without error and `h` is outside the `skipSNI` trie. -/
def Succeeds (parseAddrOk : String → Bool) (range1 range2 : List (Sniffer × SnifferConfig))
    (sd : SnifferDispatcher) (conn : NetConn) (m : Metadata) (h : String) : Prop :=
  ∃ bufConn port, conn = NetConn.buffered bufConn ∧ eligible sd m = true
    ∧ ParseUint16 m.DstPort = some port
    ∧ (whitelistLoop port range1 false).1 = true
    ∧ counter sd.skipList (dstKey m) ≤ 5
    ∧ (sniffDomain parseAddrOk m range2 bufConn (sd.skipList.Get (dstKey m)).2).err = none
    ∧ (sniffDomain parseAddrOk m range2 bufConn (sd.skipList.Get (dstKey m)).2).host = h
    ∧ sd.skipSNI h = false

/-- A TLS sniffer for the examples with two sniffers: it supports port 443 and
finds "target.example" in bytes that start a TLS handshake record (0x16). -/
def tlsOnlySniffer : Sniffer :=
  { Protocol := "tls", SupportNetwork := NetWork.TCP, SupportPort := fun p => p == 443,
    SniffTCP := fun bytes => if bytes.head? = some 0x16 then some "target.example" else none }

/-- An HTTP sniffer for the examples with two sniffers: it supports port 80 and
finds "plain.example" in bytes that start with `G` (0x47, a `GET` request). -/
def httpOnlySniffer : Sniffer :=
  { Protocol := "http", SupportNetwork := NetWork.TCP, SupportPort := fun p => p == 80,
    SniffTCP := fun bytes => if bytes.head? = some 0x47 then some "plain.example" else none }

/-- The registered sniffers of the examples with two sniffers: TLS on port 443
with `OverrideDest` true, HTTP on port 80 with `OverrideDest` false. -/
def twoSniffers : List (Sniffer × SnifferConfig) :=
  [(tlsOnlySniffer, { OverrideDest := true }), (httpOnlySniffer, { OverrideDest := false })]

/-- The dispatcher of the examples with two sniffers, `parsePureIp` on. -/
def twoSnifferDispatcher : SnifferDispatcher :=
  { enable := true, sniffers := twoSniffers, forceDomain := fun _ => false,
    skipSNI := fun _ => false, skipList := [], forceDnsMapping := false, parsePureIp := true }

/-- A connection that has sent the start of a plain HTTP request, `GET`. -/
def getConn : BufferedConn :=
  { peek1 := none, buffered := [0x47, 0x45, 0x54], peekAllFails := false, peeks := 0,
    closed := false }

end Dispatch

namespace Tls

/-! ## `component/tls/utls.go` -/

/-- The `utls.ClientHelloID` values the table `Fingerprints` points to. -/
inductive HelloID where
  | HelloChrome_Auto
  | HelloFirefox_Auto
  | HelloSafari_Auto
  | HelloIOS_Auto
  | HelloRandomized
  deriving DecidableEq, Repr

/-- The `UClientHelloID`: a pointer to a `utls.ClientHelloID`, `none` for the
nil pointer of the zero value. -/
structure UClientHelloID where
  ClientHelloID : Option HelloID
  deriving DecidableEq, Repr

/-- The table `Fingerprints`. -/
def Fingerprints : List (String × UClientHelloID) :=
  [("chrome", ⟨some HelloID.HelloChrome_Auto⟩),
   ("firefox", ⟨some HelloID.HelloFirefox_Auto⟩),
   ("safari", ⟨some HelloID.HelloSafari_Auto⟩),
   ("ios", ⟨some HelloID.HelloIOS_Auto⟩),
   ("randomized", ⟨some HelloID.HelloRandomized⟩)]

/-- The indexing `Fingerprints[name]` with its flag: the zero value and
`false` when the name is absent. -/
def fingerprintsGet (name : String) : UClientHelloID × Bool :=
  match mapGet Fingerprints name with
  | some fingerprint => (fingerprint, true)
  | none => (⟨none⟩, false)

/-- The choices of the chooser of `RollFingerprint`, with their weights. -/
def choices : List (String × Nat) :=
  [("chrome", 6), ("safari", 3), ("ios", 2), ("firefox", 1)]

/-- The `RollFingerprint`; `pick` is what `chooser.Pick()` returns. -/
def RollFingerprint (pick : String) : UClientHelloID × Bool :=
  fingerprintsGet pick

/-- The package variables `initRandomFingerprint` and `initUtlsClient`, and
the number of calls of `RollFingerprint` made so far. -/
structure State where
  initRandomFingerprint : UClientHelloID
  initUtlsClient : String
  rolls : Nat
  deriving DecidableEq, Repr

/-- The package variables when the process starts. -/
def State.init : State :=
  { initRandomFingerprint := ⟨none⟩, initUtlsClient := "", rolls := 0 }

/-- How a call of `GetFingerprint` ends: it returns its two values, or it
panics on a nil pointer dereference. -/
inductive Result where
  | ret (fingerprint : UClientHelloID) (ok : Bool)
  | panic
  deriving DecidableEq, Repr

/-- The `GetFingerprint`; `pick` is what `chooser.Pick()` returns if the call
rolls. The arguments of the two `log.Debugln` calls are evaluated before the
return: `initRandomFingerprint.Client` and `fingerprint.Client` read a field
through the embedded pointer and panic when it is nil. The package variables
keep what the call did before it panicked. -/
def GetFingerprint (st : State) (pick : String) (ClientFingerprint : String) :
    Result × State :=
  if ClientFingerprint = "none" then (Result.ret ⟨none⟩ false, st)
  else
    let st :=
      if st.initRandomFingerprint.ClientHelloID = none then
        { st with initRandomFingerprint := (RollFingerprint pick).1, rolls := st.rolls + 1 }
      else st
    if ClientFingerprint = "random" then
      match st.initRandomFingerprint.ClientHelloID with
      | none => (Result.panic, st)
      | some _ => (Result.ret st.initRandomFingerprint true, st)
    else
      match (fingerprintsGet ClientFingerprint).1.ClientHelloID with
      | none => (Result.panic, st)
      | some _ =>
        (Result.ret (fingerprintsGet ClientFingerprint).1 (fingerprintsGet ClientFingerprint).2,
          st)

/-- One call of `GetFingerprint` in a process: the pick of the chooser if the
call rolls, the argument, and whether the caller recovers from a panic of the
call. -/
structure Call where
  pick : String
  ClientFingerprint : String
  recovered : Bool
  deriving DecidableEq, Repr

/-- A sequence of `GetFingerprint` calls in one process. The results of the
calls that ran, in order, and the package variables at the end. A panic that
is not recovered ends the process: the calls after it do not run. -/
def runCalls : State → List Call → List Result × State
  | st, [] => ([], st)
  | st, c :: rest =>
    if (GetFingerprint st c.pick c.ClientFingerprint).1 = Result.panic ∧ c.recovered = false then
      ([Result.panic], (GetFingerprint st c.pick c.ClientFingerprint).2)
    else
      ((GetFingerprint st c.pick c.ClientFingerprint).1
          :: (runCalls (GetFingerprint st c.pick c.ClientFingerprint).2 rest).1,
        (runCalls (GetFingerprint st c.pick c.ClientFingerprint).2 rest).2)

/-- The table entries the chooser can pick. -/
def rollable : List UClientHelloID :=
  [⟨some HelloID.HelloChrome_Auto⟩, ⟨some HelloID.HelloSafari_Auto⟩,
   ⟨some HelloID.HelloIOS_Auto⟩, ⟨some HelloID.HelloFirefox_Auto⟩]

/-- The arguments `GetFingerprint` answers without a panic: "none", "random"
and the keys of `Fingerprints`. -/
def answered : List String :=
  "none" :: "random" :: Fingerprints.map Prod.fst

end Tls

namespace Mixed

/-! ## `listener/mixed/mixed.go` -/

/-- Modelled from the spec: the constant `socks4.Version` (`0x04`). -/
def socks4Version : Nat := 0x04

/-- Modelled from the spec: the constant `socks5.Version` (`0x05`). -/
def socks5Version : Nat := 0x05

/-- An accepted `*net.TCPConn`: the bytes the client sends before the stream
ends, and the keep-alive option. -/
structure TCPConn where
  incoming : List Nat
  keepAlive : Bool
  deriving DecidableEq, Repr

/-- Modelled from the spec: the buffered peekable connection `N.BufferedConn`,
with the bytes a read has yet to deliver. -/
structure BufferedConn where
  conn : TCPConn
  unread : List Nat
  deriving DecidableEq, Repr

/-- Modelled from the spec: `N.NewBufferedConn`. -/
def NewBufferedConn (conn : TCPConn) : BufferedConn :=
  { conn := conn, unread := conn.incoming }

/-- Modelled from the spec: `Peek(n)`, a non-consuming view of `n` bytes, or an
error (`none`) when the stream ends before. -/
def BufferedConn.Peek (b : BufferedConn) (n : Nat) : Option (List Nat) :=
  if n ≤ b.unread.length then some (b.unread.take n) else none

/-- The three handlers `handleConn` can call. -/
inductive Handler where
  | HandleSocks4
  | HandleSocks5
  | HandleConn
  deriving DecidableEq, Repr

/-- The `handleConn` of the mixed listener: the handler calls it makes, each
with the connection it passes. -/
def handleConn (conn : TCPConn) : List (Handler × BufferedConn) :=
  let conn := { conn with keepAlive := true }
  let bufConn := NewBufferedConn conn
  match bufConn.Peek 1 with
  | none => []
  | some head =>
    if head.head? = some socks4Version then [(Handler.HandleSocks4, bufConn)]
    else if head.head? = some socks5Version then [(Handler.HandleSocks5, bufConn)]
    else [(Handler.HandleConn, bufConn)]

end Mixed

/-! ## Lemmas on maps -/

theorem mapGet_mapSet {α : Type} (m : List (String × α)) (k k' : String) (v : α) :
    mapGet (mapSet m k v) k' = if k = k' then some v else mapGet m k' := by
  induction m with
  | nil => simp [mapSet, mapGet]
  | cons hd tl ih =>
    obtain ⟨a, b⟩ := hd
    simp only [mapSet]
    split_ifs with h1 h2 h2
    · simp [mapGet, h2]
    · subst h1
      simp [mapGet, h2]
    · subst h2
      simp [mapGet, h1, ih]
    · simp only [mapGet, ih, if_neg h2]

theorem mapGet_mapSet_self {α : Type} (m : List (String × α)) (k : String) (v : α) :
    mapGet (mapSet m k v) k = some v := by
  simp [mapGet_mapSet]

theorem mapGet_mapSet_ne {α : Type} (m : List (String × α)) (k k' : String) (v : α)
    (h : k ≠ k') : mapGet (mapSet m k v) k' = mapGet m k' := by
  simp [mapGet_mapSet, h]

theorem mapGet_mapDelete {α : Type} (m : List (String × α)) (k k' : String) :
    mapGet (mapDelete m k) k' = if k = k' then none else mapGet m k' := by
  induction m with
  | nil => simp [mapDelete, mapGet]
  | cons hd tl ih =>
    obtain ⟨a, b⟩ := hd
    simp only [mapDelete]
    split_ifs with h1 h2 h2
    · rw [ih]
      simp [h2]
    · subst h1
      simp [mapGet, ih, h2]
    · subst h2
      simp [mapGet, h1, ih]
    · simp only [mapGet, ih, if_neg h2]

/-! ## Lemmas on the share-link decoder -/

namespace Convert

theorem setPort_get (url : URL) (proxy : List (String × PVal)) (k : String) :
    mapGet (setPort url proxy) k =
      if "port" = k then some (if url.Port = "" then PVal.str "" else PVal.int 443)
      else mapGet proxy k := by
  unfold setPort
  split_ifs with h1 h2 h2 <;> simp [mapGet_mapSet, h1, h2]

theorem setSecurity_get (query : List (String × List String))
    (proxy : List (String × PVal)) (k : String) :
    mapGet (setSecurity query proxy) k =
      if "client-fingerprint" = k then
        (if hasSuffix (toLower (queryGet query "security")) "tls" then
          some (PVal.str (if queryGet query "fp" = "" then "chrome" else queryGet query "fp"))
         else mapGet proxy k)
      else if "tls" = k then
        some (PVal.bool (hasSuffix (toLower (queryGet query "security")) "tls"))
      else mapGet proxy k := by
  unfold setSecurity
  by_cases hs : hasSuffix (toLower (queryGet query "security")) "tls" = true
  · simp only [hs, if_true]
    by_cases hf : queryGet query "fp" = ""
    · simp only [hf, if_true, mapGet_mapSet]
      split_ifs <;> rfl
    · simp only [hf, if_false, mapGet_mapSet]
      split_ifs <;> rfl
  · have hs' : hasSuffix (toLower (queryGet query "security")) "tls" = false := by
      simpa using hs
    simp only [hs', Bool.false_eq_true, if_false, mapGet_mapSet]
    split_ifs with h1 h2 h2
    all_goals first | rfl | (subst h1; exact absurd h2 (by decide))

theorem setServerName_get (query : List (String × List String))
    (proxy : List (String × PVal)) (k : String) (h : "servername" ≠ k) :
    mapGet (setServerName query proxy) k = mapGet proxy k := by
  unfold setServerName
  split_ifs <;> simp [mapGet_mapSet, h]

theorem setPacketEncoding_get (query : List (String × List String))
    (proxy : List (String × PVal)) (k : String)
    (h1 : "packet-addr" ≠ k) (h2 : "xudp" ≠ k) :
    mapGet (setPacketEncoding query proxy) k = mapGet proxy k := by
  unfold setPacketEncoding
  simp only
  split_ifs <;> simp [mapGet_mapSet, h1, h2]

theorem tcpArm_get (query : List (String × List String)) (fakeType : String)
    (proxy : List (String × PVal)) (k : String) (h : "http-opts" ≠ k) :
    mapGet (tcpArm query fakeType proxy) k = mapGet proxy k := by
  unfold tcpArm
  split_ifs <;> simp [mapGet_mapSet, h]

theorem httpArm_get (query : List (String × List String))
    (proxy : List (String × PVal)) (k : String) (h : "h2-opts" ≠ k) :
    mapGet (httpArm query proxy) k = mapGet proxy k := by
  unfold httpArm
  simp [mapGet_mapSet, h]

theorem grpcArm_get (query : List (String × List String))
    (proxy : List (String × PVal)) (k : String) (h : "grpc-opts" ≠ k) :
    mapGet (grpcArm query proxy) k = mapGet proxy k := by
  unfold grpcArm
  simp [mapGet_mapSet, h]

theorem wsArm_get (ua : String) (query : List (String × List String))
    (proxy : List (String × PVal)) (k : String) (h : "ws-opts" ≠ k) :
    mapGet (wsArm ua query proxy).1 k = mapGet proxy k := by
  unfold wsArm
  simp only
  split <;> simp [mapGet_mapSet, h]

/-- Keys other than the four option records pass through the switch. -/
theorem transportSwitch_get (ua : String) (query : List (String × List String))
    (fakeType network : String) (proxy : List (String × PVal)) (k : String)
    (h : k ∉ optsKeys) :
    mapGet (transportSwitch ua query fakeType network proxy).1 k = mapGet proxy k := by
  simp only [optsKeys, List.mem_cons, List.mem_singleton, not_or, List.mem_nil_iff,
    or_false] at h
  obtain ⟨h1, h2, h3, h4⟩ := h
  unfold transportSwitch
  split_ifs
  · exact tcpArm_get _ _ _ _ (Ne.symm h1)
  · exact httpArm_get _ _ _ (Ne.symm h2)
  · exact wsArm_get _ _ _ _ (Ne.symm h3)
  · exact grpcArm_get _ _ _ (Ne.symm h4)
  · rfl

theorem handleVShareLink_of_hostname
    (uniqueName : List (String × Int) → String → String × List (String × Int))
    (ua : String) (names : List (String × Int)) (url : URL) (scheme : String)
    (proxy : List (String × PVal)) (h : url.Hostname ≠ "") :
    (handleVShareLink uniqueName ua names url scheme proxy).proxy =
        (transportSwitch ua url.Query (toLower (queryGet url.Query "headerType"))
          (resolveNetwork url.Query) (beforeSwitch uniqueName names url scheme proxy)).1
    ∧ (handleVShareLink uniqueName ua names url scheme proxy).err =
        (transportSwitch ua url.Query (toLower (queryGet url.Query "headerType"))
          (resolveNetwork url.Query) (beforeSwitch uniqueName names url scheme proxy)).2 := by
  simp [handleVShareLink, h, beforeSwitch]

theorem handleVShareLink_of_no_hostname
    (uniqueName : List (String × Int) → String → String × List (String × Int))
    (ua : String) (names : List (String × Int)) (url : URL) (scheme : String)
    (proxy : List (String × PVal)) (h : url.Hostname = "") :
    (handleVShareLink uniqueName ua names url scheme proxy).err =
      some ShareLinkError.hostnameEmpty := by
  simp [handleVShareLink, h]

theorem hostname_of_accepted
    (uniqueName : List (String × Int) → String → String × List (String × Int))
    (ua : String) (names : List (String × Int)) (url : URL) (scheme : String)
    (proxy : List (String × PVal))
    (h : (handleVShareLink uniqueName ua names url scheme proxy).err = none) :
    url.Hostname ≠ "" := by
  intro h0
  rw [handleVShareLink_of_no_hostname _ _ _ _ _ _ h0] at h
  exact absurd h (by simp)

/-- The `port` entry for a link with a hostname: the empty string when the
URL has no port, the integer 443 when it has one. -/
theorem handleVShareLink_port
    (uniqueName : List (String × Int) → String → String × List (String × Int))
    (ua : String) (names : List (String × Int)) (url : URL) (scheme : String)
    (proxy : List (String × PVal)) (h : url.Hostname ≠ "") :
    mapGet (handleVShareLink uniqueName ua names url scheme proxy).proxy "port" =
      some (if url.Port = "" then PVal.str "" else PVal.int 443) := by
  rw [(handleVShareLink_of_hostname uniqueName ua names url scheme proxy h).1,
    transportSwitch_get _ _ _ _ _ _ (by decide)]
  unfold beforeSwitch
  rw [mapGet_mapSet_ne _ _ _ _ (by decide),
    setPacketEncoding_get _ _ _ (by decide) (by decide),
    setServerName_get _ _ _ (by decide), setSecurity_get]
  simp only [mapGet_mapSet, setPort_get]
  simp

/-- The `tls` entry for a link with a hostname. -/
theorem handleVShareLink_tls
    (uniqueName : List (String × Int) → String → String × List (String × Int))
    (ua : String) (names : List (String × Int)) (url : URL) (scheme : String)
    (proxy : List (String × PVal)) (h : url.Hostname ≠ "") :
    mapGet (handleVShareLink uniqueName ua names url scheme proxy).proxy "tls" =
      some (PVal.bool (hasSuffix (toLower (queryGet url.Query "security")) "tls")) := by
  rw [(handleVShareLink_of_hostname uniqueName ua names url scheme proxy h).1,
    transportSwitch_get _ _ _ _ _ _ (by decide)]
  unfold beforeSwitch
  rw [mapGet_mapSet_ne _ _ _ _ (by decide),
    setPacketEncoding_get _ _ _ (by decide) (by decide),
    setServerName_get _ _ _ (by decide), setSecurity_get]
  simp

/-- The `client-fingerprint` entry for a link with a hostname. -/
theorem handleVShareLink_fingerprint
    (uniqueName : List (String × Int) → String → String × List (String × Int))
    (ua : String) (names : List (String × Int)) (url : URL) (scheme : String)
    (proxy : List (String × PVal)) (h : url.Hostname ≠ "") :
    mapGet (handleVShareLink uniqueName ua names url scheme proxy).proxy "client-fingerprint" =
      if hasSuffix (toLower (queryGet url.Query "security")) "tls" then
        some (PVal.str (if queryGet url.Query "fp" = "" then "chrome" else queryGet url.Query "fp"))
      else mapGet proxy "client-fingerprint" := by
  rw [(handleVShareLink_of_hostname uniqueName ua names url scheme proxy h).1,
    transportSwitch_get _ _ _ _ _ _ (by decide)]
  unfold beforeSwitch
  rw [mapGet_mapSet_ne _ _ _ _ (by decide),
    setPacketEncoding_get _ _ _ (by decide) (by decide),
    setServerName_get _ _ _ (by decide), setSecurity_get]
  simp only [mapGet_mapSet, setPort_get]
  simp

/-- The `network` entry for a link with a hostname. -/
theorem handleVShareLink_network
    (uniqueName : List (String × Int) → String → String × List (String × Int))
    (ua : String) (names : List (String × Int)) (url : URL) (scheme : String)
    (proxy : List (String × PVal)) (h : url.Hostname ≠ "") :
    mapGet (handleVShareLink uniqueName ua names url scheme proxy).proxy "network" =
      some (PVal.str (resolveNetwork url.Query)) := by
  rw [(handleVShareLink_of_hostname uniqueName ua names url scheme proxy h).1,
    transportSwitch_get _ _ _ _ _ _ (by decide)]
  unfold beforeSwitch
  rw [mapGet_mapSet_self]

/-! ## Claims on the share-link decoder -/

/-- C1: on the share link `vless://uuid@host.example:8443#MyNode` the code stores
the integer 443 under `port`, not 8443, and on the same link without a port it
stores the empty string, not the integer 443: the test of line 19 is inverted. -/
theorem handleVShareLink_port_inverted :
    mapGet (handleVShareLink keepName "UA" []
        ⟨"MyNode", "host.example", "8443", "uuid", []⟩ "vless" []).proxy "port"
      = some (PVal.int 443)
    ∧ mapGet (handleVShareLink keepName "UA" []
        ⟨"MyNode", "host.example", "", "uuid", []⟩ "vless" []).proxy "port"
      = some (PVal.str "") := by
  constructor
  · exact handleVShareLink_port _ _ _ _ _ _ (by decide)
  · exact handleVShareLink_port _ _ _ _ _ _ (by decide)

/-- C2, as stated, fails: the accepted link
`vless://uuid@host.example:443?security=reality#MyNode` has `security` equal
to "reality", yet `proxy["tls"]` is false and no client-fingerprint is set. -/
theorem handleVShareLink_reality_counterexample :
    queryGet [("security", ["reality"])] "security" = "reality"
    ∧ (handleVShareLink keepName "UA" []
        ⟨"MyNode", "host.example", "443", "uuid", [("security", ["reality"])]⟩
        "vless" []).err = none
    ∧ mapGet (handleVShareLink keepName "UA" []
        ⟨"MyNode", "host.example", "443", "uuid", [("security", ["reality"])]⟩
        "vless" []).proxy "tls" = some (PVal.bool false)
    ∧ mapGet (handleVShareLink keepName "UA" []
        ⟨"MyNode", "host.example", "443", "uuid", [("security", ["reality"])]⟩
        "vless" []).proxy "client-fingerprint" = none := by
  decide

/-- C2, amended: for every accepted share link whose `security` parameter is
"tls" or "xtls", `proxy["tls"]` is true and `proxy["client-fingerprint"]` is
the `fp` parameter when it is non-empty and "chrome" when it is absent; for a
link with no `security` parameter, and for one whose `security` is "reality",
`proxy["tls"]` is false and the call leaves `client-fingerprint` as it found
it (unset, on a fresh map). -/
theorem handleVShareLink_security
    (uniqueName : List (String × Int) → String → String × List (String × Int))
    (ua : String) (names : List (String × Int)) (url : URL) (scheme : String)
    (proxy : List (String × PVal))
    (hacc : (handleVShareLink uniqueName ua names url scheme proxy).err = none) :
    ((queryGet url.Query "security" = "tls" ∨ queryGet url.Query "security" = "xtls") →
        mapGet (handleVShareLink uniqueName ua names url scheme proxy).proxy "tls"
          = some (PVal.bool true)
        ∧ mapGet (handleVShareLink uniqueName ua names url scheme proxy).proxy
            "client-fingerprint"
          = some (PVal.str
              (if queryGet url.Query "fp" = "" then "chrome" else queryGet url.Query "fp")))
    ∧ ((mapGet url.Query "security" = none ∨ queryGet url.Query "security" = "reality") →
        mapGet (handleVShareLink uniqueName ua names url scheme proxy).proxy "tls"
          = some (PVal.bool false)
        ∧ mapGet (handleVShareLink uniqueName ua names url scheme proxy).proxy
            "client-fingerprint"
          = mapGet proxy "client-fingerprint") := by
  have hh := hostname_of_accepted _ _ _ _ _ _ hacc
  rw [handleVShareLink_tls _ _ _ _ _ _ hh, handleVShareLink_fingerprint _ _ _ _ _ _ hh]
  constructor
  · intro hsec
    have hs : hasSuffix (toLower (queryGet url.Query "security")) "tls" = true := by
      rcases hsec with h | h <;> rw [h] <;> decide
    simp [hs]
  · intro hsec
    have hs : hasSuffix (toLower (queryGet url.Query "security")) "tls" = false := by
      rcases hsec with h | h
      · have : queryGet url.Query "security" = "" := by simp [queryGet, h]
        rw [this]
        decide
      · rw [h]
        decide
    simp [hs]

/-- C2, amended, at the links `...?security=xtls&fp=firefox` and
`...?security=reality` on a fresh map. -/
theorem handleVShareLink_security_witness :
    (mapGet (handleVShareLink keepName "UA" []
        ⟨"MyNode", "host.example", "443", "uuid",
          [("security", ["xtls"]), ("fp", ["firefox"])]⟩ "vless" []).proxy "tls"
      = some (PVal.bool true)
    ∧ mapGet (handleVShareLink keepName "UA" []
        ⟨"MyNode", "host.example", "443", "uuid",
          [("security", ["xtls"]), ("fp", ["firefox"])]⟩ "vless" []).proxy
          "client-fingerprint"
      = some (PVal.str "firefox"))
    ∧ (mapGet (handleVShareLink keepName "UA" []
        ⟨"MyNode", "host.example", "443", "uuid", []⟩ "vless" []).proxy "tls"
      = some (PVal.bool false)
    ∧ mapGet (handleVShareLink keepName "UA" []
        ⟨"MyNode", "host.example", "443", "uuid", []⟩ "vless" []).proxy
          "client-fingerprint"
      = none) :=
  ⟨(handleVShareLink_security keepName "UA" []
      ⟨"MyNode", "host.example", "443", "uuid",
        [("security", ["xtls"]), ("fp", ["firefox"])]⟩ "vless" [] (by decide)).1
      (Or.inr (by decide)),
   (handleVShareLink_security keepName "UA" []
      ⟨"MyNode", "host.example", "443", "uuid", []⟩ "vless" [] (by decide)).2
      (Or.inl (by decide))⟩

/-- C3: the option record is not keyed by the resolved transport. On
`...?type=tcp&headerType=http&host=a.example` the network is "http" and the
record emitted is `h2-opts`, not `http-opts`; on `...?type=http` the network is
"h2" and no record is emitted; on a link with no `type` the network is "tcp"
and the record emitted is `http-opts`. -/
theorem handleVShareLink_opts_key_mismatch :
    (mapGet (handleVShareLink keepName "UA" []
        ⟨"MyNode", "host.example", "443", "uuid",
          [("type", ["tcp"]), ("headerType", ["http"]), ("host", ["a.example"])]⟩
        "vless" []).proxy "network" = some (PVal.str "http")
      ∧ mapGet (handleVShareLink keepName "UA" []
        ⟨"MyNode", "host.example", "443", "uuid",
          [("type", ["tcp"]), ("headerType", ["http"]), ("host", ["a.example"])]⟩
        "vless" []).proxy "http-opts" = none
      ∧ mapGet (handleVShareLink keepName "UA" []
        ⟨"MyNode", "host.example", "443", "uuid",
          [("type", ["tcp"]), ("headerType", ["http"]), ("host", ["a.example"])]⟩
        "vless" []).proxy "h2-opts"
        = some (PVal.opts [("path", OVal.strs ["/"]), ("host", OVal.strs ["a.example"]),
            ("headers", OVal.headers [])]))
    ∧ (mapGet (handleVShareLink keepName "UA" []
        ⟨"MyNode", "host.example", "443", "uuid", [("type", ["http"])]⟩
        "vless" []).proxy "network" = some (PVal.str "h2")
      ∧ ∀ k ∈ optsKeys, mapGet (handleVShareLink keepName "UA" []
        ⟨"MyNode", "host.example", "443", "uuid", [("type", ["http"])]⟩
        "vless" []).proxy k = none)
    ∧ (mapGet (handleVShareLink keepName "UA" []
        ⟨"MyNode", "host.example", "443", "uuid", []⟩
        "vless" []).proxy "network" = some (PVal.str "tcp")
      ∧ mapGet (handleVShareLink keepName "UA" []
        ⟨"MyNode", "host.example", "443", "uuid", []⟩
        "vless" []).proxy "http-opts"
        = some (PVal.opts [("path", OVal.strs ["/"]), ("headers", OVal.headers [])])) := by
  decide

theorem wsArm_err (ua : String) (query : List (String × List String))
    (proxy : List (String × PVal)) :
    (wsArm ua query proxy).2 ≠ none ↔
      (queryGet query "ed" ≠ "" ∧ Atoi (queryGet query "ed") = none) := by
  unfold wsArm
  by_cases he : queryGet query "ed" = ""
  · simp [he]
  · cases ha : Atoi (queryGet query "ed") <;> simp [he, ha]

theorem wsArm_early_data (ua : String) (query : List (String × List String))
    (proxy : List (String × PVal)) (med : Int)
    (he : queryGet query "ed" ≠ "") (ha : Atoi (queryGet query "ed") = some med) :
    ∃ wsOpts, mapGet (wsArm ua query proxy).1 "ws-opts" = some (PVal.opts wsOpts)
      ∧ mapGet wsOpts "max-early-data" = some (OVal.int med) := by
  unfold wsArm
  simp only [he, ha, ne_eq, not_false_eq_true, if_true, mapGet_mapSet_self]
  refine ⟨_, rfl, ?_⟩
  split_ifs
  · rw [mapGet_mapSet_self]
  · rw [mapGet_mapSet_ne _ _ _ _ (by decide), mapGet_mapSet_self]

theorem transportSwitch_err (ua : String) (query : List (String × List String))
    (fakeType network : String) (proxy : List (String × PVal)) :
    (transportSwitch ua query fakeType network proxy).2 ≠ none ↔
      (network = "ws" ∧ queryGet query "ed" ≠ "" ∧ Atoi (queryGet query "ed") = none) := by
  unfold transportSwitch
  by_cases h1 : network = "tcp"
  · subst h1
    simp
  · by_cases h2 : network = "http"
    · subst h2
      simp
    · by_cases h3 : network = "ws"
      · subst h3
        simp only [if_neg h1, if_neg h2, if_true, true_and]
        exact wsArm_err ua query proxy
      · by_cases h4 : network = "grpc" <;> simp [h1, h2, h3, h4]

/-- C4: `handleVShareLink` returns an error exactly when the hostname is empty,
or the resolved network is "ws" and `ed` is non-empty and `strconv.Atoi`
rejects it; the resolved network is what `proxy["network"]` holds; and for a
ws link whose `ed` parses, `ws-opts["max-early-data"]` is that integer. -/
theorem handleVShareLink_error_iff
    (uniqueName : List (String × Int) → String → String × List (String × Int))
    (ua : String) (names : List (String × Int)) (url : URL) (scheme : String)
    (proxy : List (String × PVal)) :
    ((handleVShareLink uniqueName ua names url scheme proxy).err ≠ none ↔
      (url.Hostname = "" ∨
        (resolveNetwork url.Query = "ws" ∧ queryGet url.Query "ed" ≠ ""
          ∧ Atoi (queryGet url.Query "ed") = none)))
    ∧ (url.Hostname ≠ "" →
        mapGet (handleVShareLink uniqueName ua names url scheme proxy).proxy "network"
          = some (PVal.str (resolveNetwork url.Query)))
    ∧ (∀ med : Int, url.Hostname ≠ "" → resolveNetwork url.Query = "ws" →
        queryGet url.Query "ed" ≠ "" → Atoi (queryGet url.Query "ed") = some med →
        (handleVShareLink uniqueName ua names url scheme proxy).err = none
        ∧ ∃ wsOpts,
          mapGet (handleVShareLink uniqueName ua names url scheme proxy).proxy "ws-opts"
            = some (PVal.opts wsOpts)
          ∧ mapGet wsOpts "max-early-data" = some (OVal.int med)) := by
  refine ⟨?_, ?_, ?_⟩
  · by_cases hh : url.Hostname = ""
    · simp [handleVShareLink_of_no_hostname _ _ _ _ _ _ hh, hh]
    · rw [(handleVShareLink_of_hostname uniqueName ua names url scheme proxy hh).2,
        transportSwitch_err]
      simp [hh]
  · intro hh
    exact handleVShareLink_network _ _ _ _ _ _ hh
  · intro med hh hws he ha
    have herr : (handleVShareLink uniqueName ua names url scheme proxy).err = none := by
      by_contra hne
      rw [(handleVShareLink_of_hostname uniqueName ua names url scheme proxy hh).2] at hne
      have := (transportSwitch_err _ _ _ _ _).1 hne
      rw [ha] at this
      exact absurd this.2.2 (by simp)
    refine ⟨herr, ?_⟩
    rw [(handleVShareLink_of_hostname uniqueName ua names url scheme proxy hh).1, hws]
    have : (transportSwitch ua url.Query (toLower (queryGet url.Query "headerType")) "ws"
        (beforeSwitch uniqueName names url scheme proxy)).1
        = (wsArm ua url.Query (beforeSwitch uniqueName names url scheme proxy)).1 := by
      simp [transportSwitch]
    rw [this]
    exact wsArm_early_data _ _ _ _ he ha

/-- C4 at the link of the spec's scenario 4 (`type=ws`, `ed=2048`), and at
the same link with `ed=abc`. -/
theorem handleVShareLink_error_iff_witness :
    ((handleVShareLink keepName "UA" []
        ⟨"MyNode", "host.example", "8443", "uuid",
          [("security", ["tls"]), ("sni", ["real.example"]), ("type", ["ws"]),
           ("path", ["/abc"]), ("host", ["front.example"]), ("ed", ["2048"])]⟩
        "vless" []).err = none
      ∧ ∃ wsOpts,
        mapGet (handleVShareLink keepName "UA" []
          ⟨"MyNode", "host.example", "8443", "uuid",
            [("security", ["tls"]), ("sni", ["real.example"]), ("type", ["ws"]),
             ("path", ["/abc"]), ("host", ["front.example"]), ("ed", ["2048"])]⟩
          "vless" []).proxy "ws-opts" = some (PVal.opts wsOpts)
        ∧ mapGet wsOpts "max-early-data" = some (OVal.int 2048))
    ∧ (handleVShareLink keepName "UA" []
        ⟨"MyNode", "host.example", "8443", "uuid", [("type", ["ws"]), ("ed", ["abc"])]⟩
        "vless" []).err ≠ none :=
  ⟨(handleVShareLink_error_iff keepName "UA" []
      ⟨"MyNode", "host.example", "8443", "uuid",
        [("security", ["tls"]), ("sni", ["real.example"]), ("type", ["ws"]),
         ("path", ["/abc"]), ("host", ["front.example"]), ("ed", ["2048"])]⟩
      "vless" []).2.2 2048 (by decide) (by decide) (by decide) (by decide),
   (handleVShareLink_error_iff keepName "UA" []
      ⟨"MyNode", "host.example", "8443", "uuid", [("type", ["ws"]), ("ed", ["abc"])]⟩
      "vless" []).1.2 (Or.inr (by decide))⟩

end Convert

namespace Gun

/-! ## Lemmas on varints -/

theorem uleb128Fuel_fuel (f1 : Nat) : ∀ (f2 n : Nat), n ≤ f1 → n ≤ f2 →
    uleb128Fuel f1 n = uleb128Fuel f2 n := by
  induction f1 with
  | zero =>
    intro f2 n h1 _
    have hn : n = 0 := by omega
    subst hn
    cases f2 <;> simp [uleb128Fuel]
  | succ f1 ih =>
    intro f2 n h1 h2
    by_cases hlt : n < 128
    · cases f2 with
      | zero =>
        simp [uleb128Fuel, hlt]
      | succ f2 => simp [uleb128Fuel, hlt]
    · cases f2 with
      | zero => omega
      | succ f2 =>
        simp only [uleb128Fuel, hlt, if_false]
        rw [ih f2 (n / 128) (by omega) (by omega)]

theorem uleb128_eq (n : Nat) :
    uleb128 n = if n < 128 then [n] else (n % 128 + 128) :: uleb128 (n / 128) := by
  unfold uleb128
  cases n with
  | zero => simp [uleb128Fuel]
  | succ m =>
    simp only [uleb128Fuel]
    split_ifs with h
    · rfl
    · rw [uleb128Fuel_fuel m ((m + 1) / 128) ((m + 1) / 128) (by omega) (le_refl _)]

theorem varintLenFuel_fuel (f1 : Nat) : ∀ (f2 n : Nat), n ≤ f1 → n ≤ f2 →
    varintLenFuel f1 n = varintLenFuel f2 n := by
  induction f1 with
  | zero =>
    intro f2 n h1 _
    have hn : n = 0 := by omega
    subst hn
    cases f2 <;> simp [varintLenFuel]
  | succ f1 ih =>
    intro f2 n h1 h2
    by_cases hlt : n < 128
    · cases f2 with
      | zero => simp [varintLenFuel, hlt]
      | succ f2 => simp [varintLenFuel, hlt]
    · cases f2 with
      | zero => omega
      | succ f2 =>
        simp only [varintLenFuel, hlt, if_false]
        rw [ih f2 (n / 128) (by omega) (by omega)]

theorem varintLen_eq (n : Nat) :
    varintLen n = if n < 128 then 1 else varintLen (n / 128) + 1 := by
  unfold varintLen
  cases n with
  | zero => simp [varintLenFuel]
  | succ m =>
    simp only [varintLenFuel]
    split_ifs with h
    · rfl
    · rw [varintLenFuel_fuel m ((m + 1) / 128) ((m + 1) / 128) (by omega) (le_refl _)]

/-- The varint of `n` has `varintLen n` bytes. -/
theorem uleb128_length (n : Nat) : (uleb128 n).length = varintLen n := by
  induction n using Nat.strong_induction_on with
  | _ n ih =>
    rw [uleb128_eq, varintLen_eq]
    split_ifs with h
    · rfl
    · simp [ih (n / 128) (by omega)]

theorem varintLen_pos (n : Nat) : 1 ≤ varintLen n := by
  rw [varintLen_eq]
  split_ifs <;> omega

/-- A value below `2 ^ (7 * k)` has a varint of at most `k` bytes. -/
theorem varintLen_le (k : Nat) : ∀ n : Nat, 1 ≤ k → n < 2 ^ (7 * k) → varintLen n ≤ k := by
  induction k with
  | zero => intro n h; omega
  | succ k ih =>
    intro n _ hn
    rw [varintLen_eq]
    split_ifs with h
    · omega
    · have hk : 1 ≤ k := by
        by_contra hk
        have : k = 0 := by omega
        subst this
        simp at hn
        omega
      have hdiv : n / 128 < 2 ^ (7 * k) := by
        rw [Nat.div_lt_iff_lt_mul (by norm_num)]
        have : 2 ^ (7 * (k + 1)) = 2 ^ (7 * k) * 128 := by
          rw [show 7 * (k + 1) = 7 * k + 7 by ring, pow_add]
          norm_num
        omega
      have := ih (n / 128) hk hdiv
      omega

/-- A `uint64` has a varint of at most `MaxVarintLen64` bytes. -/
theorem varintLen_le_max (n : Nat) (h : n < 2 ^ 64) : varintLen n ≤ MaxVarintLen64 := by
  apply varintLen_le 10 n (by norm_num)
  calc n < 2 ^ 64 := h
    _ ≤ 2 ^ (7 * 10) := by norm_num

set_option maxRecDepth 100000 in
theorem byte_or_continuation (x : Nat) : (x % 256) ||| 0x80 = x % 128 + 128 := by
  have h : ∀ b : Nat, b < 256 → b ||| 0x80 = b % 128 + 128 := by decide
  rw [h (x % 256) (Nat.mod_lt _ (by norm_num))]
  omega

/-- With room for it, `PutUvarint` writes the LEB128 varint of `x` at the
front of the buffer and leaves the tail of the buffer as it was. -/
theorem PutUvarint_eq (buf : List Nat) : ∀ x : Nat, varintLen x ≤ buf.length →
    PutUvarint buf x = some (uleb128 x ++ buf.drop (varintLen x), varintLen x) := by
  induction buf with
  | nil =>
    intro x h
    have := varintLen_pos x
    simp at h
    omega
  | cons b rest ih =>
    intro x h
    rw [uleb128_eq, varintLen_eq]
    by_cases hx : x < 128
    · have hx' : ¬ (x ≥ 0x80) := by omega
      simp only [PutUvarint, hx', hx, if_true, if_false]
      have : x % 256 = x := Nat.mod_eq_of_lt (by omega)
      simp [this]
    · have hx' : x ≥ 0x80 := by omega
      rw [varintLen_eq] at h
      simp only [hx, if_false, List.length_cons] at h
      simp only [PutUvarint, hx', hx, if_true, if_false]
      rw [Nat.shiftRight_eq_div_pow, show (2 : Nat) ^ 7 = 128 by norm_num,
        ih (x / 128) (by omega), byte_or_continuation]
      simp

theorem PutUint32_length (v : Nat) : (PutUint32 v).length = 4 := rfl

/-- The four bytes `PutUint32` writes are bytes, and read back big-endian
they are the value. -/
theorem beValue_PutUint32 (v : Nat) (h : v < 2 ^ 32) :
    beValue (PutUint32 v) = v ∧ ∀ x ∈ PutUint32 v, x < 256 := by
  constructor
  · simp only [beValue, PutUint32, List.foldl, Nat.shiftRight_eq_div_pow]
    norm_num
    omega
  · intro x hx
    simp only [PutUint32, List.mem_cons, List.mem_singleton, List.mem_nil_iff, or_false] at hx
    rcases hx with h1 | h1 | h1 | h1 <;> rw [h1] <;> exact Nat.mod_lt _ (by norm_num)

/-- What `Write` hands to the pipe writer, for a payload shorter than `2 ^ 64`. -/
theorem Write_eq (g : Conn) (b : List Nat) (h : b.length < 2 ^ 64) :
    g.Write b = some ({ g with written := g.written ++ [frame b] }, b.length) := by
  have hmax := varintLen_le_max b.length h
  have hlen := uleb128_length b.length
  unfold Conn.Write
  simp only [Nat.mod_eq_of_lt h]
  rw [show (List.drop 1 (0x0A :: List.replicate MaxVarintLen64 0))
      = List.replicate MaxVarintLen64 0 from rfl]
  rw [PutUvarint_eq (List.replicate MaxVarintLen64 0) b.length (by simpa using hmax)]
  simp only [Option.some.injEq, Prod.mk.injEq, and_true]
  congr 2
  have htake : List.take (varintLen b.length + 1)
      (List.take 1 (0x0A :: List.replicate MaxVarintLen64 0)
        ++ (uleb128 b.length ++ List.drop (varintLen b.length) (List.replicate MaxVarintLen64 0)))
      = 0x0A :: uleb128 b.length := by
    rw [show List.take 1 (0x0A :: List.replicate MaxVarintLen64 0) = [0x0A] from rfl]
    simp only [List.singleton_append, List.take_succ_cons]
    rw [← hlen, List.take_left]
  rw [htake]
  simp [PutUint32, frame]

/-- C5: for every payload `b` of length `L` with `varintLen L + 1 + L < 2 ^ 32`,
`Write b` succeeds, returns `L` and hands the pipe writer exactly one more byte
string: `0x00`, the four bytes of `varintLen L + 1 + L` (big-endian), `0x0A`,
the unsigned LEB128 varint of `L` (`varintLen L` bytes), then `b`; its length
is `6 + varintLen L + L`. -/
theorem Write_frame (g : Conn) (b : List Nat)
    (h : varintLen b.length + 1 + b.length < 2 ^ 32) :
    g.Write b = some ({ g with written := g.written ++
        [[0x00] ++ PutUint32 (varintLen b.length + 1 + b.length) ++ [0x0A]
          ++ uleb128 b.length ++ b] }, b.length)
    ∧ (PutUint32 (varintLen b.length + 1 + b.length)).length = 4
    ∧ beValue (PutUint32 (varintLen b.length + 1 + b.length))
        = varintLen b.length + 1 + b.length
    ∧ (uleb128 b.length).length = varintLen b.length
    ∧ ([0x00] ++ PutUint32 (varintLen b.length + 1 + b.length) ++ [0x0A]
          ++ uleb128 b.length ++ b).length = 6 + varintLen b.length + b.length := by
  have hb : b.length < 2 ^ 64 := by
    have : (2 : Nat) ^ 32 < 2 ^ 64 := by norm_num
    omega
  refine ⟨?_, rfl, (beValue_PutUint32 _ h).1, uleb128_length _, ?_⟩
  · rw [Write_eq g b hb, frame, Nat.mod_eq_of_lt h]
  · simp [PutUint32, uleb128_length]
    omega

set_option maxRecDepth 100000 in
/-- C5 at a payload of 300 bytes: the frame starts
`00 00 00 01 2F 0A AC 02`. -/
theorem Write_frame_witness :
    (Conn.fresh []).Write (List.replicate 300 7)
      = some ({ Conn.fresh [] with written :=
          [[0x00, 0x00, 0x00, 0x01, 0x2F, 0x0A, 0xAC, 0x02] ++ List.replicate 300 7] }, 300) := by
  have h := (Write_frame (Conn.fresh []) (List.replicate 300 7) (by decide)).1
  rw [h]
  decide

/-! ## Reading back what was written -/

theorem and_0x7f (b : Nat) : b &&& 0x7f = b % 128 :=
  Nat.and_pow_two_sub_one_eq_mod b 7

theorem or_shift (x y s : Nat) (hx : x < 2 ^ s) : x ||| (y * 2 ^ s) = x + y * 2 ^ s := by
  rw [Nat.or_comm, Nat.mul_comm y, ← Nat.mul_add_lt_is_or hx y, Nat.add_comm]

/-- The loop of `ReadUvarint` on the varint of `y`, entered with `i` bytes
already read: it stops after the varint and adds `y * 2 ^ s` to the
accumulator. -/
theorem readUvarintLoop_uleb128 (rest : List Nat) (y : Nat) :
    ∀ (i x : Nat), x < 2 ^ (7 * i) → y * 2 ^ (7 * i) < 2 ^ 64 →
      i + varintLen y ≤ MaxVarintLen64 →
      readUvarintLoop (uleb128 y ++ rest) i x (7 * i) = (rest, x + y * 2 ^ (7 * i), none) := by
  induction y using Nat.strong_induction_on with
  | _ y ih =>
    intro i x hx hy hi
    have hpos := varintLen_pos y
    have hi10 : i < MaxVarintLen64 := by omega
    rw [uleb128_eq]
    by_cases hlt : y < 128
    · simp only [hlt, if_true, List.singleton_append, readUvarintLoop, hi10]
      have hov : ¬ (i = MaxVarintLen64 - 1 ∧ y > 1) := by
        rintro ⟨h9, h1⟩
        have h9' : i = 9 := h9
        subst h9'
        norm_num at hy
        omega
      simp only [hov, if_false, Nat.shiftLeft_eq]
      rw [Nat.mod_eq_of_lt hy, or_shift x y _ hx]
      have hsum : x + y * 2 ^ (7 * i) < 2 ^ 64 := by
        have h1 : x + y * 2 ^ (7 * i) < (y + 1) * 2 ^ (7 * i) := by
          rw [Nat.add_mul]
          omega
        by_cases h9 : i = 9
        · subst h9
          norm_num at hy hx ⊢
          omega
        · have hi8 : i ≤ 8 := by
            have : i < 10 := hi10
            omega
          have hp : (2 : Nat) ^ (7 * i) ≤ 2 ^ 56 :=
            Nat.pow_le_pow_right (by norm_num) (by omega)
          have h2 : (y + 1) * 2 ^ (7 * i) ≤ 128 * 2 ^ 56 :=
            Nat.mul_le_mul (by omega) hp
          have : (128 : Nat) * 2 ^ 56 < 2 ^ 64 := by norm_num
          omega
      rw [Nat.mod_eq_of_lt hsum]
    · have hb : ¬ (y % 128 + 128 < 0x80) := by omega
      simp only [hlt, if_false, List.cons_append, readUvarintLoop, hi10, if_true, hb]
      have hvl : varintLen y = varintLen (y / 128) + 1 := by
        rw [varintLen_eq y]
        simp [hlt]
      have hpow : (2 : Nat) ^ (7 * (i + 1)) = 2 ^ (7 * i) * 128 := by
        rw [show 7 * (i + 1) = 7 * i + 7 by ring, pow_add]
        norm_num
      have hdm := Nat.div_add_mod y 128
      have hmod : (y % 128 + 128) % 128 = y % 128 := by omega
      have hlow : y % 128 * 2 ^ (7 * i) < 2 ^ 64 := by
        have : y % 128 * 2 ^ (7 * i) ≤ y * 2 ^ (7 * i) :=
          Nat.mul_le_mul_right _ (Nat.mod_le _ _)
        omega
      rw [and_0x7f, hmod, Nat.shiftLeft_eq, Nat.mod_eq_of_lt hlow, or_shift _ _ _ hx]
      have hacc : x + y % 128 * 2 ^ (7 * i) < 2 ^ (7 * (i + 1)) := by
        rw [hpow]
        have : y % 128 * 2 ^ (7 * i) ≤ 127 * 2 ^ (7 * i) :=
          Nat.mul_le_mul_right _ (by omega)
        omega
      have hhigh : y / 128 * 2 ^ (7 * (i + 1)) ≤ y * 2 ^ (7 * i) := by
        rw [hpow, Nat.mul_comm (2 ^ (7 * i)) 128, ← Nat.mul_assoc]
        exact Nat.mul_le_mul_right _ (by omega)
      have hacc64 : x + y % 128 * 2 ^ (7 * i) < 2 ^ 64 := by
        have h1 : x + y % 128 * 2 ^ (7 * i) < (y % 128 + 1) * 2 ^ (7 * i) := by
          rw [Nat.add_mul]
          omega
        have h2 : (y % 128 + 1) * 2 ^ (7 * i) ≤ y * 2 ^ (7 * i) :=
          Nat.mul_le_mul_right _ (by omega)
        omega
      rw [Nat.mod_eq_of_lt hacc64, show 7 * i + 7 = 7 * (i + 1) by ring,
        ih (y / 128) (by omega) (i + 1) _ hacc (by omega) (by omega)]
      congr 2
      rw [hpow]
      have : y * 2 ^ (7 * i) = (128 * (y / 128) + y % 128) * 2 ^ (7 * i) := by rw [hdm]
      rw [this]
      ring

/-- The `ReadUvarint` of Go reads back the varint of any `uint64`. -/
theorem ReadUvarint_uleb128 (rest : List Nat) (y : Nat) (h : y < 2 ^ 64) :
    ReadUvarint (uleb128 y ++ rest) = (rest, y, none) := by
  have := readUvarintLoop_uleb128 rest y 0 0 (by norm_num) (by simpa using h)
    (by simpa using varintLen_le_max y h)
  simpa [ReadUvarint] using this

theorem ReadFull_append (d rest : List Nat) (size : Nat) (h : size ≤ d.length) :
    ReadFull (d ++ rest) size = (d.take size, none, d.drop size ++ rest) := by
  have h1 : size ≤ (d ++ rest).length := by
    rw [List.length_append]
    omega
  simp only [ReadFull, h1, if_true]
  rw [List.take_append_of_le_length h, List.drop_append_of_le_length h]

theorem toInt_of_lt (x : Nat) (h : x < 2 ^ 63) : toInt x = (x : Int) := by
  have h64 : x < 2 ^ 64 := by
    have : (2 : Nat) ^ 63 < 2 ^ 64 := by norm_num
    omega
  unfold toInt
  rw [Nat.mod_eq_of_lt h64, if_pos h]

/-- A read while a payload is being delivered: the next `min k |d|` bytes. -/
theorem Read_remain (g : Conn) (d : List Nat) (ps : List (List Nat)) (k : Nat)
    (hg : g.Holds d ps) (hd : d ≠ []) :
    ∃ g', g.Read k = .ret (d.take k).length (d.take k) none g' ∧ g'.Holds (d.drop k) ps := by
  obtain ⟨h1, h2, h3, h4, h5⟩ := hg
  have hpos : 0 < d.length := List.length_pos.mpr hd
  have hinit : g.onceInit = g := by simp [Conn.onceInit, h1]
  have hrem : g.remain > 0 := by
    rw [h4]
    exact_mod_cast hpos
  have hsize : (if (k : Int) < g.remain then (k : Int) else g.remain).toNat = min k d.length := by
    rw [h4]
    split_ifs with hk
    · have : k < d.length := by exact_mod_cast hk
      simp
      omega
    · have : ¬ k < d.length := by
        intro h
        exact hk (by exact_mod_cast h)
      simp
      omega
  have htake : d.take (min k d.length) = d.take k := by
    rcases Nat.le_total k d.length with h | h
    · rw [Nat.min_eq_left h]
    · rw [Nat.min_eq_right h, List.take_of_length_le h, List.take_of_length_le (le_refl _)]
  have hdrop : d.drop (min k d.length) = d.drop k := by
    rcases Nat.le_total k d.length with h | h
    · rw [Nat.min_eq_left h]
    · rw [Nat.min_eq_right h, List.drop_of_length_le h, List.drop_of_length_le (le_refl _)]
  refine ⟨{ g with
    remain := g.remain - ((d.take k).length : Int)
    br := d.drop k ++ (ps.map frame).flatten }, ?_, ?_⟩
  · simp only [Conn.Read, hinit, h2, hrem, if_true, Bool.false_eq_true, if_false, hsize, h5]
    rw [ReadFull_append d _ _ (Nat.min_le_right _ _), htake, hdrop]
  · refine ⟨h1, h2, h3, ?_, rfl⟩
    simp only [h4, List.length_take, List.length_drop]
    omega

/-- A read at a frame boundary: the header is skipped, the length is read and
the first `min k |p|` bytes of the payload are delivered. -/
theorem Read_frame (g : Conn) (p : List Nat) (ps : List (List Nat)) (k : Nat)
    (hg : g.Holds [] (p :: ps)) (hp : p.length < 2 ^ 63) :
    ∃ g', g.Read k = .ret (p.take k).length (p.take k) none g' ∧ g'.Holds (p.drop k) ps := by
  obtain ⟨h1, h2, h3, h4, h5⟩ := hg
  have hinit : g.onceInit = g := by simp [Conn.onceInit, h1]
  have hrem : ¬ (g.remain > 0) := by
    rw [h4]
    simp
  have h64 : p.length < 2 ^ 64 := by
    have : (2 : Nat) ^ 63 < 2 ^ 64 := by norm_num
    omega
  have hbr : g.br = ([0x00] ++ PutUint32 ((varintLen p.length + 1 + p.length) % 2 ^ 32)
      ++ [0x0A]) ++ (uleb128 p.length ++ (p ++ (ps.map frame).flatten)) := by
    rw [h5]
    simp [frame]
  have hdisc : Discard g.br 6 = (uleb128 p.length ++ (p ++ (ps.map frame).flatten), none) := by
    rw [hbr]
    have hl : ([0x00] ++ PutUint32 ((varintLen p.length + 1 + p.length) % 2 ^ 32)
      ++ [0x0A]).length = 6 := rfl
    simp only [Discard, List.length_append, hl]
    rw [if_pos (by omega)]
    rw [List.drop_append_of_le_length (by omega), ← hl, List.drop_length]
    rfl
  have hsize : (if (k : Int) < toInt p.length then (k : Int) else toInt p.length)
      = ((min k p.length : Nat) : Int) := by
    rw [toInt_of_lt _ hp]
    split_ifs with hk
    · have : k < p.length := by exact_mod_cast hk
      rw [Nat.min_eq_left (by omega)]
    · have : ¬ k < p.length := by
        intro h
        exact hk (by exact_mod_cast h)
      rw [Nat.min_eq_right (by omega)]
  have htake : p.take (min k p.length) = p.take k := by
    rcases Nat.le_total k p.length with h | h
    · rw [Nat.min_eq_left h]
    · rw [Nat.min_eq_right h, List.take_of_length_le h, List.take_of_length_le (le_refl _)]
  have hdrop : p.drop (min k p.length) = p.drop k := by
    rcases Nat.le_total k p.length with h | h
    · rw [Nat.min_eq_left h]
    · rw [Nat.min_eq_right h, List.drop_of_length_le h, List.drop_of_length_le (le_refl _)]
  have hnn : ¬ (((min k p.length : Nat) : Int) < 0) := by omega
  by_cases hmore : k < p.length
  · refine ⟨{ g with
      br := p.drop k ++ (ps.map frame).flatten
      remain := toInt p.length - ((p.take k).length : Int) }, ?_, ?_⟩
    · simp only [Conn.Read, hinit, h2, hrem, h3, if_false, Bool.false_eq_true, Bool.not_true,
        hdisc, ReadUvarint_uleb128 _ _ h64, hsize, hnn, Int.toNat_ofNat]
      rw [ReadFull_append p _ _ (Nat.min_le_right _ _), htake, hdrop]
      have hpos : toInt p.length - ((p.take k).length : Int) > 0 := by
        rw [toInt_of_lt _ hp, List.length_take]
        omega
      simp only [hpos, if_true]
    · refine ⟨h1, h2, h3, ?_, rfl⟩
      simp only [toInt_of_lt _ hp, List.length_take, List.length_drop]
      omega
  · refine ⟨{ g with br := p.drop k ++ (ps.map frame).flatten }, ?_, ?_⟩
    · simp only [Conn.Read, hinit, h2, hrem, h3, if_false, Bool.false_eq_true, Bool.not_true,
        hdisc, ReadUvarint_uleb128 _ _ h64, hsize, hnn, Int.toNat_ofNat]
      rw [ReadFull_append p _ _ (Nat.min_le_right _ _), htake, hdrop]
      have hpos : ¬ (toInt p.length - ((p.take k).length : Int) > 0) := by
        rw [toInt_of_lt _ hp, List.length_take]
        omega
      simp only [hpos, if_false]
    · refine ⟨h1, h2, h3, ?_, rfl⟩
      simp only [h4, List.length_drop, List.length_nil]
      omega

/-- A read at the end of the response body: `io.EOF`, no data. -/
theorem Read_end (g : Conn) (k : Nat) (hg : g.Holds [] []) :
    ∃ g', g.Read k = .ret 0 [] (some Err.eof) g' := by
  obtain ⟨h1, h2, h3, h4, h5⟩ := hg
  have hinit : g.onceInit = g := by simp [Conn.onceInit, h1]
  have hrem : ¬ (g.remain > 0) := by
    rw [h4]
    simp
  have hbr : g.br = [] := by simpa using h5
  refine ⟨{ g with br := [] }, ?_⟩
  simp [Conn.Read, hinit, h2, hrem, h3, hbr, Discard]

theorem frame_length (p : List Nat) :
    (frame p).length = 6 + varintLen p.length + p.length := by
  simp [frame, PutUint32, uleb128_length]
  omega

/-- Reads repeated until the first error deliver what is left of the current
payload and then every framed payload, and end with `io.EOF`. -/
theorem readUntilError_holds (k : Nat) (hk : 0 < k) :
    ∀ (fuel : Nat) (g : Conn) (d : List Nat) (ps : List (List Nat)),
      g.Holds d ps → (∀ p ∈ ps, p.length < 2 ^ 63) →
      d.length + ((ps.map frame).flatten).length < fuel →
      readUntilError fuel g k = (d ++ ps.flatten, Stop.err Err.eof) := by
  intro fuel
  induction fuel with
  | zero => intro g d ps _ _ h; omega
  | succ fuel ih =>
    intro g d ps hg hps hfuel
    cases d with
    | nil =>
      cases ps with
      | nil =>
        obtain ⟨g', hread⟩ := Read_end g k hg
        simp [readUntilError, hread]
      | cons p ps =>
        obtain ⟨g', hread, hg'⟩ := Read_frame g p ps k hg (hps p (List.mem_cons_self _ _))
        have hrec := ih g' (p.drop k) ps hg'
          (fun q hq => hps q (List.mem_cons_of_mem _ hq))
          (by
            simp only [List.map_cons, List.flatten_cons, List.length_append, frame_length,
              List.length_nil] at hfuel
            simp only [List.length_drop]
            omega)
        simp only [readUntilError, hread, hrec, List.nil_append, List.flatten_cons]
        rw [← List.append_assoc, List.take_append_drop]
    | cons x xs =>
      obtain ⟨g', hread, hg'⟩ := Read_remain g (x :: xs) ps k hg (by simp)
      have hrec := ih g' ((x :: xs).drop k) ps hg' hps
        (by
          simp only [List.length_drop, List.length_cons] at hfuel ⊢
          omega)
      simp only [readUntilError, hread, hrec]
      rw [← List.append_assoc, List.take_append_drop]

theorem onceInit_idem (g : Conn) : g.onceInit.onceInit = g.onceInit := by
  unfold Conn.onceInit
  by_cases h : g.onceDone = true <;> simp [h]

theorem Read_onceInit (g : Conn) (k : Nat) : g.onceInit.Read k = g.Read k := by
  unfold Conn.Read
  rw [onceInit_idem]

theorem readUntilError_onceInit (fuel : Nat) (g : Conn) (k : Nat) :
    readUntilError fuel g.onceInit k = readUntilError fuel g k := by
  cases fuel with
  | zero => rfl
  | succ fuel => simp only [readUntilError, Read_onceInit]

theorem fresh_holds (ps : List (List Nat)) :
    (Conn.fresh (ps.map frame).flatten).onceInit.Holds [] ps := by
  simp [Conn.Holds, Conn.fresh, Conn.onceInit, Conn.initRequest]

theorem writeAll_eq (ps : List (List Nat)) : ∀ (g : Conn), (∀ p ∈ ps, p.length < 2 ^ 64) →
    writeAll g ps = some { g with written := g.written ++ ps.map frame } := by
  induction ps with
  | nil => intro g _; simp [writeAll]
  | cons p ps ih =>
    intro g h
    simp only [writeAll, Write_eq g p (h p (List.mem_cons_self _ _))]
    rw [ih _ (fun q hq => h q (List.mem_cons_of_mem _ hq))]
    simp

/-- C6: gRPC framing round trip. For every sequence of payloads (each of a
length a Go slice can have, below `2 ^ 63`) and every positive read-buffer
size `k`, the writes succeed, and on a response body that is the
concatenation of the byte strings they handed to the pipe writer, `Read`
calls repeated until the first error return no error before the end of the
body, where the error is `io.EOF`, and the bytes they return, concatenated,
are the payloads concatenated. -/
theorem read_write_roundtrip (payloads : List (List Nat)) (k : Nat) (hk : 0 < k)
    (hlen : ∀ p ∈ payloads, p.length < 2 ^ 63) :
    ∃ w, writeAll (Conn.fresh []) payloads = some w
      ∧ w.written = payloads.map frame
      ∧ ∀ fuel, w.written.flatten.length < fuel →
          readUntilError fuel (Conn.fresh w.written.flatten) k
            = (payloads.flatten, Stop.err Err.eof) := by
  have h64 : ∀ p ∈ payloads, p.length < 2 ^ 64 := by
    intro p hp
    have := hlen p hp
    have : (2 : Nat) ^ 63 < 2 ^ 64 := by norm_num
    omega
  refine ⟨_, writeAll_eq payloads (Conn.fresh []) h64, by simp [Conn.fresh], ?_⟩
  intro fuel hfuel
  have hw : ({ Conn.fresh [] with written := (Conn.fresh []).written ++ payloads.map frame }
      : Conn).written = payloads.map frame := by simp [Conn.fresh]
  rw [hw] at hfuel ⊢
  rw [← readUntilError_onceInit]
  have := readUntilError_holds k hk fuel _ [] payloads (fresh_holds payloads) hlen
    (by simpa using hfuel)
  simpa using this

/-- C6 at payloads of lengths 0, 1, 127, 128, 65535 and 70000 and a read
buffer of 4 bytes. -/
theorem read_write_roundtrip_witness :
    ∃ w, writeAll (Conn.fresh [])
        [[], [1], List.replicate 127 2, List.replicate 128 3, List.replicate 65535 4,
          List.replicate 70000 5] = some w
      ∧ w.written = [[], [1], List.replicate 127 2, List.replicate 128 3,
          List.replicate 65535 4, List.replicate 70000 5].map frame
      ∧ ∀ fuel, w.written.flatten.length < fuel →
          readUntilError fuel (Conn.fresh w.written.flatten) 4
            = ([[], [1], List.replicate 127 2, List.replicate 128 3, List.replicate 65535 4,
                List.replicate 70000 5].flatten, Stop.err Err.eof) :=
  read_write_roundtrip _ 4 (by decide) (by
    intro p hp
    simp only [List.mem_cons, List.mem_singleton, List.mem_nil_iff, or_false] at hp
    rcases hp with h | h | h | h | h | h <;> subst h <;>
      first
        | (rw [List.length_replicate]; norm_num)
        | (rw [List.length_nil]; norm_num)
        | (rw [List.length_singleton]; norm_num))

/-! ## `WriteBuffer` -/

/-- The header bytes `WriteBuffer` fills in, on a slice of `6 + varintLen n`
bytes of any content: every byte of the slice is overwritten. -/
theorem header_fill (hdr : List Nat) (n v32 : Nat)
    (hlen : hdr.length = 6 + varintLen n) :
    ∃ tail k, PutUvarint
        (((((hdr.set 0 0x00).take 1 ++ PutUint32 v32 ++ (hdr.set 0 0x00).drop 5).set 5 0x0A)).drop 6)
        n = some (tail, k)
      ∧ ((((hdr.set 0 0x00).take 1 ++ PutUint32 v32 ++ (hdr.set 0 0x00).drop 5).set 5 0x0A)).take 6
          ++ tail
        = [0x00] ++ PutUint32 v32 ++ [0x0A] ++ uleb128 n := by
  rcases hdr with _ | ⟨a0, _ | ⟨a1, _ | ⟨a2, _ | ⟨a3, _ | ⟨a4, _ | ⟨a5, rest⟩⟩⟩⟩⟩⟩ <;>
    simp only [List.length_nil, List.length_cons] at hlen <;> try omega
  have hrest : varintLen n ≤ rest.length := by omega
  refine ⟨uleb128 n ++ rest.drop (varintLen n), varintLen n, ?_, ?_⟩
  · have : ((((a0 :: a1 :: a2 :: a3 :: a4 :: a5 :: rest).set 0 0x00).take 1 ++ PutUint32 v32
        ++ ((a0 :: a1 :: a2 :: a3 :: a4 :: a5 :: rest).set 0 0x00).drop 5).set 5 0x0A).drop 6
        = rest := by
      simp [PutUint32]
    rw [this]
    exact PutUvarint_eq rest n hrest
  · have hdrop : rest.drop (varintLen n) = [] := List.drop_of_length_le (by omega)
    rw [hdrop]
    simp [PutUint32]

/-- With the header room it asks for, `WriteBuffer` hands the pipe writer the
frame of the data. -/
theorem WriteBuffer_eq (g : Conn) (buffer : Buffer) (h : buffer.data.length < 2 ^ 64)
    (hroom : 6 + varintLen buffer.data.length ≤ buffer.front.length) :
    g.WriteBuffer buffer = some { g with written := g.written ++ [frame buffer.data] } := by
  unfold Conn.WriteBuffer
  simp only [UVarintLen, Nat.mod_eq_of_lt h, Nat.mod_mod, Buffer.ExtendHeader, hroom, if_true]
  have hlen : (List.drop (buffer.front.length - (6 + varintLen buffer.data.length)) buffer.front).length
      = 6 + varintLen buffer.data.length := by
    rw [List.length_drop]
    omega
  have htake : (List.drop (buffer.front.length - (6 + varintLen buffer.data.length)) buffer.front
        ++ buffer.data).take (6 + varintLen buffer.data.length)
      = List.drop (buffer.front.length - (6 + varintLen buffer.data.length)) buffer.front := by
    exact List.take_left' hlen
  have hdrop : (List.drop (buffer.front.length - (6 + varintLen buffer.data.length)) buffer.front
        ++ buffer.data).drop (6 + varintLen buffer.data.length)
      = buffer.data := by
    exact List.drop_left' hlen
  rw [htake, hdrop]
  obtain ⟨tail, k, hput, hhdr⟩ := header_fill _ buffer.data.length
    ((1 + varintLen buffer.data.length + buffer.data.length) % 2 ^ 32) hlen
  rw [hput]
  simp only [hhdr]
  have hadd : 1 + varintLen buffer.data.length + buffer.data.length
      = varintLen buffer.data.length + 1 + buffer.data.length := by omega
  rw [hadd]
  rfl

/-- C14: for every payload of length `L` with `1 + varintLen L + L < 2 ^ 32`,
held by a buffer with the front headroom the header needs, `WriteBuffer` hands
the pipe writer the bytes `Write` hands it for the same payload (both leave the
connection in the same state); the header has `6 + varintLen L` bytes, at most
`FrontHeadroom() = 6 + MaxVarintLen64 = 16`, so that a buffer with
`FrontHeadroom()` bytes of headroom always has room. -/
theorem WriteBuffer_refines_Write (g : Conn) (buffer : Buffer)
    (h : 1 + varintLen buffer.data.length + buffer.data.length < 2 ^ 32)
    (hroom : 6 + varintLen buffer.data.length ≤ buffer.front.length) :
    (∃ gw, g.Write buffer.data = some (gw, buffer.data.length)
      ∧ g.WriteBuffer buffer = some gw
      ∧ gw.written = g.written ++
          [[0x00] ++ PutUint32 (varintLen buffer.data.length + 1 + buffer.data.length)
            ++ [0x0A] ++ uleb128 buffer.data.length ++ buffer.data])
    ∧ UVarintLen buffer.data.length = varintLen buffer.data.length
    ∧ 6 + UVarintLen buffer.data.length ≤ g.FrontHeadroom
    ∧ g.FrontHeadroom = 16 := by
  have hb : buffer.data.length < 2 ^ 64 := by
    have : (2 : Nat) ^ 32 < 2 ^ 64 := by norm_num
    omega
  have hu : UVarintLen buffer.data.length = varintLen buffer.data.length := by
    unfold UVarintLen
    rw [Nat.mod_eq_of_lt hb]
  refine ⟨⟨_, Write_eq g buffer.data hb, WriteBuffer_eq g buffer hb hroom, ?_⟩, hu, ?_, rfl⟩
  · simp only [frame]
    rw [Nat.mod_eq_of_lt (by omega)]
  · rw [hu]
    have := varintLen_le_max buffer.data.length hb
    simp only [Conn.FrontHeadroom]
    omega

/-- C14 at a payload of three bytes in a buffer with 16 bytes of headroom. -/
theorem WriteBuffer_refines_Write_witness :
    (∃ gw, (Conn.fresh []).Write [1, 2, 3] = some (gw, 3)
      ∧ (Conn.fresh []).WriteBuffer ⟨List.replicate 16 9, [1, 2, 3]⟩ = some gw
      ∧ gw.written = [[0x00, 0x00, 0x00, 0x00, 0x05, 0x0A, 0x03, 1, 2, 3]])
    ∧ 6 + UVarintLen 3 ≤ (Conn.fresh []).FrontHeadroom :=
  have h := WriteBuffer_refines_Write (Conn.fresh []) ⟨List.replicate 16 9, [1, 2, 3]⟩
    (by decide) (by decide)
  ⟨h.1, h.2.2.1⟩

theorem ReadFull_length (br : List Nat) (size : Nat) : (ReadFull br size).1.length ≤ size := by
  unfold ReadFull
  split_ifs with h1 h2
  · simp
  · simp
  · simp only
    omega

theorem onceInit_remain (g : Conn) : g.onceInit.remain = g.remain := by
  unfold Conn.onceInit Conn.initRequest
  by_cases h : g.onceDone = true
  · simp [h]
  · cases hr : g.roundTrip with
    | none => simp [h]
    | some body => by_cases hc : g.close = true <;> simp [h, hc]

theorem min_size_le (k : Nat) (r : Int) (h : 0 ≤ (if (k : Int) < r then (k : Int) else r)) :
    (if (k : Int) < r then (k : Int) else r).toNat ≤ k := by
  split_ifs at h ⊢ with hk
  · simp
  · omega

/-- A `Read` that does not panic returns at most `len(b)` bytes and leaves a
non-negative `remain`. -/
theorem Read_ret_safe (g : Conn) (k : Nat) (hrem : 0 ≤ g.remain)
    (n : Nat) (data : List Nat) (err : Option Err) (g' : Conn)
    (h : g.Read k = ReadResult.ret n data err g') :
    n = data.length ∧ n ≤ k ∧ 0 ≤ g'.remain := by
  have hrem' : 0 ≤ g.onceInit.remain := by rw [onceInit_remain]; exact hrem
  by_cases h1 : g.onceInit.err = true
  · simp only [Conn.Read, h1, if_true] at h
    injection h with e1 e2 e3 e4
    subst e1 e2 e4
    exact ⟨rfl, Nat.zero_le _, hrem'⟩
  · by_cases h2 : g.onceInit.remain > 0
    · simp only [Conn.Read, h1, h2, if_true, if_false] at h
      injection h with e1 e2 e3 e4
      subst e1 e2 e4
      have hsz : 0 ≤ (if (k : Int) < g.onceInit.remain then (k : Int) else g.onceInit.remain) := by
        split_ifs <;> omega
      have hl := ReadFull_length g.onceInit.br
        (if (k : Int) < g.onceInit.remain then (k : Int) else g.onceInit.remain).toNat
      have hk := min_size_le k g.onceInit.remain hsz
      refine ⟨rfl, le_trans hl hk, ?_⟩
      simp only
      have : (if (k : Int) < g.onceInit.remain then (k : Int) else g.onceInit.remain)
          ≤ g.onceInit.remain := by split_ifs <;> omega
      omega
    · by_cases h3 : g.onceInit.hasResponse = true
      · rcases hd : Discard g.onceInit.br 6 with ⟨br1, _ | e⟩
        · rcases hu : ReadUvarint br1 with ⟨br2, P, _ | e⟩
          · by_cases hneg : (if (k : Int) < toInt P then (k : Int) else toInt P) < 0
            · simp only [Conn.Read, h1, h2, h3, hd, hu, hneg, if_true, if_false,
                Bool.not_true, Bool.false_eq_true] at h
              exact absurd h (by simp)
            · have hl := ReadFull_length br2
                (if (k : Int) < toInt P then (k : Int) else toInt P).toNat
              have hk := min_size_le k (toInt P) (by omega)
              cases hf : (ReadFull br2
                  (if (k : Int) < toInt P then (k : Int) else toInt P).toNat).2.1 with
              | some e =>
                simp only [Conn.Read, h1, h2, h3, hd, hu, hneg, hf, if_true, if_false,
                  Bool.not_true, Bool.false_eq_true] at h
                injection h with e1 e2 e3 e4
                subst e1 e2 e4
                exact ⟨rfl, le_trans hl hk, hrem'⟩
              | none =>
                by_cases hpos : toInt P - ((ReadFull br2
                    (if (k : Int) < toInt P then (k : Int) else toInt P).toNat).1.length : Int) > 0
                · simp only [Conn.Read, h1, h2, h3, hd, hu, hneg, hf, hpos, if_true, if_false,
                    Bool.not_true, Bool.false_eq_true] at h
                  injection h with e1 e2 e3 e4
                  subst e1 e2 e4
                  exact ⟨rfl, le_trans hl hk, le_of_lt hpos⟩
                · simp only [Conn.Read, h1, h2, h3, hd, hu, hneg, hf, hpos, if_true, if_false,
                    Bool.not_true, Bool.false_eq_true] at h
                  injection h with e1 e2 e3 e4
                  subst e1 e2 e4
                  exact ⟨rfl, le_trans hl hk, hrem'⟩
          · simp only [Conn.Read, h1, h2, h3, hd, hu, if_true, if_false,
              Bool.not_true, Bool.false_eq_true] at h
            injection h with e1 e2 e3 e4
            subst e1 e2 e4
            exact ⟨rfl, Nat.zero_le _, hrem'⟩
        · simp only [Conn.Read, h1, h2, h3, hd, if_true, if_false,
            Bool.not_true, Bool.false_eq_true] at h
          injection h with e1 e2 e3 e4
          subst e1 e2 e4
          exact ⟨rfl, Nat.zero_le _, hrem'⟩
      · have h3' : g.onceInit.hasResponse = false := by simpa using h3
        simp only [Conn.Read, h1, h2, h3', if_true, if_false, Bool.not_false] at h
        injection h with e1 e2 e3 e4
        subst e1 e2 e4
        exact ⟨rfl, Nat.zero_le _, hrem'⟩

/-- C15: `Read` slices its buffer out of range on a frame whose varint length
is `2 ^ 63`. On a response body that starts with five header bytes, the tag
`0x0A` and the varint `80 80 80 80 80 80 80 80 80 01`, the length converts to
the negative `int` `-2 ^ 63`, the test `len(b) < size` is false, and `b[:size]`
panics, for a read buffer of 4 bytes as for an empty one. -/
theorem Read_panics_on_huge_length :
    ReadUvarint (hostileBody.drop 6) = ([1, 2, 3, 4], 2 ^ 63, none)
    ∧ toInt (2 ^ 63) = -(2 ^ 63)
    ∧ (Conn.fresh hostileBody).Read 4
        = ReadResult.panic { (Conn.fresh hostileBody).onceInit with br := [1, 2, 3, 4] }
    ∧ (Conn.fresh hostileBody).Read 0
        = ReadResult.panic { (Conn.fresh hostileBody).onceInit with br := [1, 2, 3, 4] } := by
  decide

end Gun

namespace Dispatch

/-! ## Lemmas on the skip-list -/

theorem mem_mapDelete {α : Type} (c : List (String × α)) (key : String) (p : String × α)
    (h : p ∈ mapDelete c key) : p ∈ c := by
  induction c with
  | nil => simp [mapDelete] at h
  | cons hd tl ih =>
    obtain ⟨a, b⟩ := hd
    simp only [mapDelete] at h
    split_ifs at h with h1
    · exact List.mem_cons_of_mem _ (ih h)
    · rcases List.mem_cons.mp h with h2 | h2
      · rw [h2]
        exact List.mem_cons_self _ _
      · exact List.mem_cons_of_mem _ (ih h2)

theorem mem_of_mapGet {α : Type} (c : List (String × α)) (key : String) (v : α)
    (h : mapGet c key = some v) : (key, v) ∈ c := by
  induction c with
  | nil => simp [mapGet] at h
  | cons hd tl ih =>
    obtain ⟨a, b⟩ := hd
    simp only [mapGet] at h
    split_ifs at h with h1
    · simp only [Option.some.injEq] at h
      rw [h1, h]
      exact List.mem_cons_self _ _
    · exact List.mem_cons_of_mem _ (ih h)

theorem counter_le_of_bounded (c : SkipList) (hc : Bounded c) (key : String) :
    counter c key ≤ 6 := by
  unfold counter
  cases h : mapGet c key with
  | none => simp
  | some v => exact hc _ (mem_of_mapGet c key v h)

theorem Get_value (c : SkipList) (key : String) :
    (c.Get key).1.1 = counter c key ∧ ((c.Get key).1.2 = true ↔ mapGet c key ≠ none) := by
  unfold SkipList.Get counter
  cases h : mapGet c key <;> simp

theorem Get_mapGet (c : SkipList) (key k : String) :
    mapGet (c.Get key).2 k = mapGet c k := by
  unfold SkipList.Get
  cases h : mapGet c key with
  | none => rfl
  | some v =>
    simp only [mapGet]
    split_ifs with h1
    · rw [← h1, h]
    · rw [mapGet_mapDelete, if_neg h1]

theorem Get_bounded (c : SkipList) (key : String) (hc : Bounded c) : Bounded (c.Get key).2 := by
  unfold SkipList.Get
  cases h : mapGet c key with
  | none => exact hc
  | some v =>
    intro p hp
    rcases List.mem_cons.mp hp with h2 | h2
    · rw [h2]
      exact hc _ (mem_of_mapGet c key v h)
    · exact hc _ (mem_mapDelete c key p h2)

theorem Delete_bounded (c : SkipList) (key : String) (hc : Bounded c) :
    Bounded (c.Delete key) :=
  fun p hp => hc _ (mem_mapDelete c key p hp)

theorem Set_bounded (c : SkipList) (key : String) (v : Nat) (hc : Bounded c) (hv : v ≤ 6) :
    Bounded (c.Set key v) := by
  intro p hp
  have hp' := List.mem_of_mem_take hp
  rcases List.mem_cons.mp hp' with h2 | h2
  · rw [h2]
    exact hv
  · exact hc _ (mem_mapDelete c key p h2)

theorem Set_mapGet_self (c : SkipList) (key : String) (v : Nat) :
    mapGet (c.Set key v) key = some v := by
  simp [SkipList.Set, skipListSize, mapGet]

/-- The step of `cacheSniffFailed` on the counter: one more while it is at
most 5. -/
theorem cacheSniffFailed_mapGet (c : SkipList) (m : Metadata) :
    mapGet (cacheSniffFailed c m) (dstKey m)
      = some (if counter c (dstKey m) ≤ 5 then (counter c (dstKey m) + 1) % 256
              else counter c (dstKey m)) := by
  unfold cacheSniffFailed
  simp only [Set_mapGet_self, (Get_value c (dstKey m)).1]

theorem cacheSniffFailed_bounded (c : SkipList) (m : Metadata) (hc : Bounded c) :
    Bounded (cacheSniffFailed c m) := by
  unfold cacheSniffFailed
  apply Set_bounded _ _ _ (Get_bounded c _ hc)
  have h6 := counter_le_of_bounded c hc (dstKey m)
  rw [(Get_value c (dstKey m)).1]
  split_ifs with h5
  · have : (counter c (dstKey m) + 1) % 256 = counter c (dstKey m) + 1 :=
      Nat.mod_eq_of_lt (by omega)
    omega
  · exact h6

/-- Every skip-list the dispatcher can hold has its counters at most 6. -/
theorem reachable_bounded (c : SkipList) (h : Reachable c) : Bounded c := by
  induction h with
  | new => intro p hp; simp at hp
  | failed c m _ ih => exact cacheSniffFailed_bounded c m ih
  | get c key _ ih => exact Get_bounded c key ih
  | delete c key _ ih => exact Delete_bounded c key ih

/-! ## Claims on the skip-list -/

/-- C7: for every skip-list the dispatcher can hold and every destination,
`cacheSniffFailed` sets the counter of the key "ip:port" to `min (c + 1) 6`,
where `c` is the counter before (0 when the key is absent); every stored
counter, before and after, is at most 6, and the counter of the key does not
decrease. -/
theorem cacheSniffFailed_saturating (c : SkipList) (m : Metadata) (hc : Reachable c) :
    mapGet (cacheSniffFailed c m) (dstKey m) = some (min (counter c (dstKey m) + 1) 6)
    ∧ counter (cacheSniffFailed c m) (dstKey m) = min (counter c (dstKey m) + 1) 6
    ∧ counter c (dstKey m) ≤ counter (cacheSniffFailed c m) (dstKey m)
    ∧ (∀ key, counter c key ≤ 6)
    ∧ (∀ key, counter (cacheSniffFailed c m) key ≤ 6) := by
  have hb := reachable_bounded c hc
  have h6 := counter_le_of_bounded c hb (dstKey m)
  have hget : mapGet (cacheSniffFailed c m) (dstKey m)
      = some (min (counter c (dstKey m) + 1) 6) := by
    rw [cacheSniffFailed_mapGet]
    split_ifs with h5
    · rw [Nat.mod_eq_of_lt (by omega), Nat.min_eq_left (by omega)]
    · rw [Nat.min_eq_right (by omega)]
      congr 1
      omega
  have hcnt : counter (cacheSniffFailed c m) (dstKey m) = min (counter c (dstKey m) + 1) 6 := by
    simp [counter, hget]
  refine ⟨hget, hcnt, ?_, counter_le_of_bounded c hb, ?_⟩
  · rw [hcnt]
    omega
  · exact counter_le_of_bounded _ (cacheSniffFailed_bounded c m hb)

/-- C7 on the empty skip-list and the destination `9.9.9.9:443`. -/
theorem cacheSniffFailed_saturating_witness :
    mapGet (cacheSniffFailed [] exampleMetadata) (dstKey exampleMetadata)
      = some (min (counter [] (dstKey exampleMetadata) + 1) 6)
    ∧ counter (cacheSniffFailed [] exampleMetadata) (dstKey exampleMetadata)
      = min (counter [] (dstKey exampleMetadata) + 1) 6
    ∧ counter [] (dstKey exampleMetadata)
      ≤ counter (cacheSniffFailed [] exampleMetadata) (dstKey exampleMetadata)
    ∧ (∀ key, counter [] key ≤ 6)
    ∧ (∀ key, counter (cacheSniffFailed [] exampleMetadata) key ≤ 6) :=
  cacheSniffFailed_saturating [] exampleMetadata Reachable.new

/-- C8: a `TCPSniff` call whose `Peek(1)` fails with a `*net.OpError` counts
twice. From an empty skip-list, one such call for `9.9.9.9:443` leaves the
counter at 2 and three leave it at 6, where the claim says 1 and 3. When the
sniffers fail on data that did arrive, `k` calls leave the counter at `k` for
every `k` up to 6, and a call that finds the counter at 6 returns without a
`Peek` and leaves the counter at 6. -/
theorem TCPSniff_peek_failure_counts_twice :
    counter (repeatSniff noIP [(tlsSniffer, ⟨true⟩)] [(tlsSniffer, ⟨true⟩)]
        (exampleDispatcher [] true) (NetConn.buffered silentConn) exampleMetadata 1)
        (dstKey exampleMetadata) = 2
    ∧ counter (repeatSniff noIP [(tlsSniffer, ⟨true⟩)] [(tlsSniffer, ⟨true⟩)]
        (exampleDispatcher [] true) (NetConn.buffered silentConn) exampleMetadata 3)
        (dstKey exampleMetadata) = 6
    ∧ (∀ k : Fin 7, counter (repeatSniff noIP [(tlsSniffer, ⟨true⟩)] [(tlsSniffer, ⟨true⟩)]
        (exampleDispatcher [] true) (NetConn.buffered opaqueConn) exampleMetadata k.val)
        (dstKey exampleMetadata) = k.val)
    ∧ (TCPSniff noIP [(tlsSniffer, ⟨true⟩)] [(tlsSniffer, ⟨true⟩)]
        (exampleDispatcher [("9.9.9.9:443", 6)] true) (NetConn.buffered helloConn)
        exampleMetadata)
      = { skipList := [("9.9.9.9:443", 6)], conn := NetConn.buffered helloConn,
          metadata := exampleMetadata } := by
  decide

/-! ## Lemmas on `sniffDomain` and the whitelist loop -/

/-- A successful `sniffDomain` leaves the skip-list alone and returns a host
that is not an IP literal and that a sniffer of network TCP found in the
buffered bytes. -/
theorem sniffDomain_ok (parseAddrOk : String → Bool) (m : Metadata)
    (range : List (Sniffer × SnifferConfig)) :
    ∀ (conn : BufferedConn) (sl : SkipList),
      (sniffDomain parseAddrOk m range conn sl).err = none →
      (sniffDomain parseAddrOk m range conn sl).skipList = sl
      ∧ parseAddrOk (sniffDomain parseAddrOk m range conn sl).host = false
      ∧ ∃ s ∈ range, s.1.SupportNetwork = NetWork.TCP
          ∧ s.1.SniffTCP conn.buffered = some (sniffDomain parseAddrOk m range conn sl).host := by
  induction range with
  | nil => intro conn sl h; simp [sniffDomain] at h
  | cons hd tl ih =>
    obtain ⟨s, cfg⟩ := hd
    intro conn sl h
    have lift : ∀ (conn' : BufferedConn), conn'.buffered = conn.buffered →
        sniffDomain parseAddrOk m ((s, cfg) :: tl) conn sl = sniffDomain parseAddrOk m tl conn' sl →
        (sniffDomain parseAddrOk m ((s, cfg) :: tl) conn sl).skipList = sl
        ∧ parseAddrOk (sniffDomain parseAddrOk m ((s, cfg) :: tl) conn sl).host = false
        ∧ ∃ s' ∈ (s, cfg) :: tl, s'.1.SupportNetwork = NetWork.TCP
          ∧ s'.1.SniffTCP conn.buffered
              = some (sniffDomain parseAddrOk m ((s, cfg) :: tl) conn sl).host := by
      intro conn' hbuf heq
      rw [heq] at h ⊢
      obtain ⟨h1, h2, s', hs', h3, h4⟩ := ih conn' sl h
      exact ⟨h1, h2, s', List.mem_cons_of_mem _ hs', h3, hbuf ▸ h4⟩
    by_cases hnet : s.SupportNetwork = NetWork.TCP
    · cases hpeek : conn.peek1 with
      | some e =>
        by_cases he : e = PeekErr.opError <;> simp [sniffDomain, hnet, hpeek, he] at h
      | none =>
        by_cases hall : conn.peekAllFails = true
        · exact lift { conn with peeks := conn.peeks + 1 + 1 } rfl
            (by simp [sniffDomain, hnet, hpeek, hall])
        · cases hsn : s.SniffTCP conn.buffered with
          | none =>
            exact lift { conn with peeks := conn.peeks + 1 + 1 } rfl
              (by simp [sniffDomain, hnet, hpeek, hall, hsn])
          | some host =>
            by_cases hip : parseAddrOk host = true
            · exact lift { conn with peeks := conn.peeks + 1 + 1 } rfl
                (by simp [sniffDomain, hnet, hpeek, hall, hsn, hip])
            · have heq : sniffDomain parseAddrOk m ((s, cfg) :: tl) conn sl
                  = { host := host, err := none,
                      conn := { conn with peeks := conn.peeks + 1 + 1 }, skipList := sl } := by
                simp [sniffDomain, hnet, hpeek, hall, hsn, hip]
              rw [heq]
              refine ⟨rfl, by simpa using hip, (s, cfg), List.mem_cons_self _ _, hnet, hsn⟩
    · exact lift conn rfl (by simp [sniffDomain, hnet])

/-- When every sniffer fails on the buffered bytes or finds an IP literal,
`sniffDomain` returns an error. -/
theorem sniffDomain_all_fail (parseAddrOk : String → Bool) (m : Metadata)
    (range : List (Sniffer × SnifferConfig)) (conn : BufferedConn) (sl : SkipList)
    (h : ∀ s ∈ range, s.1.SniffTCP conn.buffered = none
        ∨ ∃ host, s.1.SniffTCP conn.buffered = some host ∧ parseAddrOk host = true) :
    (sniffDomain parseAddrOk m range conn sl).err ≠ none := by
  intro hok
  obtain ⟨_, h2, s, hs, _, h4⟩ := sniffDomain_ok parseAddrOk m range conn sl hok
  rcases h s hs with h5 | ⟨host, h5, h6⟩
  · rw [h5] at h4
    exact absurd h4 (by simp)
  · rw [h5] at h4
    simp only [Option.some.injEq] at h4
    rw [← h4, h6] at h2
    exact absurd h2 (by simp)

/-- When no sniffer of network TCP or ALL supports the port, the loop of
`TCPSniff` ends with `inWhitelist` false. -/
theorem whitelistLoop_none (port : Nat) (range : List (Sniffer × SnifferConfig))
    (h : ∀ s ∈ range, (s.1.SupportNetwork = NetWork.TCP ∨ s.1.SupportNetwork = NetWork.ALLNet) →
        s.1.SupportPort port = false) :
    (whitelistLoop port range false).1 = false := by
  induction range with
  | nil => rfl
  | cons hd tl ih =>
    obtain ⟨s, cfg⟩ := hd
    have htl := ih (fun s' hs' => h s' (List.mem_cons_of_mem _ hs'))
    by_cases hnet : s.SupportNetwork = NetWork.TCP ∨ s.SupportNetwork = NetWork.ALLNet
    · have hp : s.SupportPort port = false := h (s, cfg) (List.mem_cons_self _ _) hnet
      simp only [whitelistLoop, hnet, if_true]
      rw [if_neg (by simp [hp])]
      exact htl
    · simp only [whitelistLoop, hnet, if_false]
      exact htl

/-- When the loop of `TCPSniff` ends with `inWhitelist` true, the flag it
returns is the `OverrideDest` of a sniffer of network TCP or ALL that supports
the port. -/
theorem whitelistLoop_some (port : Nat) (range : List (Sniffer × SnifferConfig)) :
    ∀ acc : Bool, acc = false → (whitelistLoop port range acc).1 = true →
      ∃ s ∈ range, (s.1.SupportNetwork = NetWork.TCP ∨ s.1.SupportNetwork = NetWork.ALLNet)
        ∧ s.1.SupportPort port = true
        ∧ (whitelistLoop port range acc).2 = s.2.OverrideDest := by
  induction range with
  | nil => intro acc hacc h; simp [whitelistLoop, hacc] at h
  | cons hd tl ih =>
    obtain ⟨s, cfg⟩ := hd
    intro acc hacc h
    by_cases hnet : s.SupportNetwork = NetWork.TCP ∨ s.SupportNetwork = NetWork.ALLNet
    · by_cases hp : s.SupportPort port = true
      · refine ⟨(s, cfg), List.mem_cons_self _ _, hnet, hp, ?_⟩
        simp [whitelistLoop, hnet, hp]
      · simp only [whitelistLoop, hnet, if_true, hp, if_false] at h ⊢
        obtain ⟨s', hs', h1, h2, h3⟩ := ih false rfl h
        exact ⟨s', List.mem_cons_of_mem _ hs', h1, h2, h3⟩
    · simp only [whitelistLoop, hnet, if_false] at h ⊢
      obtain ⟨s', hs', h1, h2, h3⟩ := ih acc hacc h
      exact ⟨s', List.mem_cons_of_mem _ hs', h1, h2, h3⟩

/-! ## Claims on `TCPSniff` -/

/-- The call of `TCPSniff` that passes every gate: what it returns. -/
theorem TCPSniff_of_success (parseAddrOk : String → Bool)
    (range1 range2 : List (Sniffer × SnifferConfig)) (sd : SnifferDispatcher)
    (bufConn : BufferedConn) (m : Metadata) (port : Nat)
    (helig : eligible sd m = true)
    (hport : ParseUint16 m.DstPort = some port)
    (hwl : (whitelistLoop port range1 false).1 = true)
    (hcount : counter sd.skipList (dstKey m) ≤ 5)
    (hsniff : (sniffDomain parseAddrOk m range2 bufConn (sd.skipList.Get (dstKey m)).2).err = none)
    (hsni : sd.skipSNI
      (sniffDomain parseAddrOk m range2 bufConn (sd.skipList.Get (dstKey m)).2).host = false) :
    TCPSniff parseAddrOk range1 range2 sd (NetConn.buffered bufConn) m
      = { skipList := (sniffDomain parseAddrOk m range2 bufConn
            (sd.skipList.Get (dstKey m)).2).skipList.Delete (dstKey m),
          conn := NetConn.buffered
            (sniffDomain parseAddrOk m range2 bufConn (sd.skipList.Get (dstKey m)).2).conn,
          metadata := replaceDomain m
            (sniffDomain parseAddrOk m range2 bufConn (sd.skipList.Get (dstKey m)).2).host
            (whitelistLoop port range1 false).2 } := by
  have hgate : ¬ ((sd.skipList.Get (dstKey m)).1.2 = true ∧ (sd.skipList.Get (dstKey m)).1.1 > 5) := by
    rw [(Get_value sd.skipList (dstKey m)).1]
    intro h
    omega
  simp only [TCPSniff, helig, if_true, hport, hwl, Bool.not_true, Bool.false_eq_true, if_false,
    hgate, hsniff, hsni]

/-- The metadata after `TCPSniff` is the metadata before, unless the call
passed every gate. -/
theorem TCPSniff_metadata_cases (parseAddrOk : String → Bool)
    (range1 range2 : List (Sniffer × SnifferConfig)) (sd : SnifferDispatcher)
    (conn : NetConn) (m : Metadata) :
    (TCPSniff parseAddrOk range1 range2 sd conn m).metadata = m
    ∨ ∃ bufConn port, conn = NetConn.buffered bufConn ∧ eligible sd m = true
        ∧ ParseUint16 m.DstPort = some port
        ∧ (whitelistLoop port range1 false).1 = true
        ∧ counter sd.skipList (dstKey m) ≤ 5
        ∧ (sniffDomain parseAddrOk m range2 bufConn (sd.skipList.Get (dstKey m)).2).err = none
        ∧ sd.skipSNI (sniffDomain parseAddrOk m range2 bufConn
            (sd.skipList.Get (dstKey m)).2).host = false := by
  cases conn with
  | other => left; rfl
  | buffered bufConn =>
    by_cases helig : eligible sd m = true
    · cases hport : ParseUint16 m.DstPort with
      | none => left; simp [TCPSniff, helig, hport]
      | some port =>
        by_cases hwl : (whitelistLoop port range1 false).1 = true
        · by_cases hgate : (sd.skipList.Get (dstKey m)).1.2 = true
              ∧ (sd.skipList.Get (dstKey m)).1.1 > 5
          · left
            simp [TCPSniff, helig, hport, hwl, hgate]
          · cases herr : (sniffDomain parseAddrOk m range2 bufConn
                (sd.skipList.Get (dstKey m)).2).err with
            | some e =>
              left
              simp only [TCPSniff, helig, if_true, hport, hwl, Bool.not_true,
                Bool.false_eq_true, if_false, hgate, herr]
            | none =>
              by_cases hsni : sd.skipSNI (sniffDomain parseAddrOk m range2 bufConn
                  (sd.skipList.Get (dstKey m)).2).host = true
              · left
                simp only [TCPSniff, helig, if_true, hport, hwl, Bool.not_true,
                  Bool.false_eq_true, if_false, hgate, herr, hsni]
              · right
                refine ⟨bufConn, port, rfl, helig, rfl, hwl, ?_, herr, by simpa using hsni⟩
                by_contra hc
                apply hgate
                have hv := Get_value sd.skipList (dstKey m)
                refine ⟨?_, by rw [hv.1]; omega⟩
                rw [hv.2]
                intro hnone
                simp [counter, hnone] at hc
        · left
          have hwl' : (whitelistLoop port range1 false).1 = false := by simpa using hwl
          simp [TCPSniff, helig, hport, hwl']
    · left
      simp [TCPSniff, helig]

/-- C9: for every `TCPSniff` call on a buffered connection that is eligible,
whose port a registered sniffer supports and whose skip-list counter is at
most 5, and in which the sniff returns a host `h` outside the `skipSNI` trie:
`h` was found by a sniffer of network TCP in the buffered bytes and is not an
IP literal; afterwards the skip-list has no entry for "ip:port",
`SniffHost = h`, `DNSMode = Normal`, `Host = h` when `overrideDest` is true
and `Host` is unchanged when it is false, and every other field of the
metadata is unchanged. -/
theorem TCPSniff_success_effect (parseAddrOk : String → Bool)
    (range1 range2 : List (Sniffer × SnifferConfig)) (sd : SnifferDispatcher)
    (bufConn : BufferedConn) (m : Metadata) (port : Nat) (h : String)
    (helig : eligible sd m = true)
    (hport : ParseUint16 m.DstPort = some port)
    (hwl : (whitelistLoop port range1 false).1 = true)
    (hcount : counter sd.skipList (dstKey m) ≤ 5)
    (hsniff : (sniffDomain parseAddrOk m range2 bufConn (sd.skipList.Get (dstKey m)).2).err = none)
    (hhost : (sniffDomain parseAddrOk m range2 bufConn (sd.skipList.Get (dstKey m)).2).host = h)
    (hsni : sd.skipSNI h = false) :
    (∃ s ∈ range2, s.1.SupportNetwork = NetWork.TCP ∧ s.1.SniffTCP bufConn.buffered = some h)
    ∧ parseAddrOk h = false
    ∧ mapGet (TCPSniff parseAddrOk range1 range2 sd (NetConn.buffered bufConn) m).skipList
        (dstKey m) = none
    ∧ (TCPSniff parseAddrOk range1 range2 sd (NetConn.buffered bufConn) m).metadata.SniffHost = h
    ∧ (TCPSniff parseAddrOk range1 range2 sd (NetConn.buffered bufConn) m).metadata.DNSMode
        = DNSMode.DNSNormal
    ∧ ((whitelistLoop port range1 false).2 = true →
        (TCPSniff parseAddrOk range1 range2 sd (NetConn.buffered bufConn) m).metadata.Host = h)
    ∧ ((whitelistLoop port range1 false).2 = false →
        (TCPSniff parseAddrOk range1 range2 sd (NetConn.buffered bufConn) m).metadata.Host
          = m.Host)
    ∧ (TCPSniff parseAddrOk range1 range2 sd (NetConn.buffered bufConn) m).metadata
        = { m with
              SniffHost := h, DNSMode := DNSMode.DNSNormal,
              Host := if (whitelistLoop port range1 false).2 then h else m.Host } := by
  have hall := TCPSniff_of_success parseAddrOk range1 range2 sd bufConn m port helig hport hwl
    hcount hsniff (by rw [hhost]; exact hsni)
  obtain ⟨hsl, hip, s, hs, hnet, hfound⟩ :=
    sniffDomain_ok parseAddrOk m range2 bufConn (sd.skipList.Get (dstKey m)).2 hsniff
  rw [hhost] at hip hfound
  rw [hall, hhost]
  refine ⟨⟨s, hs, hnet, hfound⟩, hip, ?_, ?_, ?_, ?_, ?_, ?_⟩
  · simp [SkipList.Delete, mapGet_mapDelete]
  · cases hod : (whitelistLoop port range1 false).2 <;> simp [replaceDomain]
  · cases hod : (whitelistLoop port range1 false).2 <;> simp [replaceDomain]
  · intro hod
    simp [replaceDomain, hod]
  · intro hod
    simp [replaceDomain, hod]
  · cases hod : (whitelistLoop port range1 false).2 <;> simp [replaceDomain]

/-- C9 on the metadata `{host:"", dstIP:1.2.3.4, dstPort:443}` with a
ClientHello whose SNI is "target.example", three earlier failures in the
skip-list, `overrideDest` false. -/
theorem TCPSniff_success_effect_witness :
    mapGet (TCPSniff noIP [(tlsSniffer, ⟨false⟩)] [(tlsSniffer, ⟨false⟩)]
        (exampleDispatcher [("1.2.3.4:443", 3)] false) (NetConn.buffered helloConn)
        { exampleMetadata with DstIP := "1.2.3.4", DNSMode := DNSMode.DNSMapping }).skipList
        "1.2.3.4:443" = none
    ∧ (TCPSniff noIP [(tlsSniffer, ⟨false⟩)] [(tlsSniffer, ⟨false⟩)]
        (exampleDispatcher [("1.2.3.4:443", 3)] false) (NetConn.buffered helloConn)
        { exampleMetadata with DstIP := "1.2.3.4", DNSMode := DNSMode.DNSMapping }).metadata
      = { exampleMetadata with
            DstIP := "1.2.3.4", SniffHost := "target.example",
            DNSMode := DNSMode.DNSNormal, Host := "" } :=
  have h := TCPSniff_success_effect noIP [(tlsSniffer, ⟨false⟩)] [(tlsSniffer, ⟨false⟩)]
    (exampleDispatcher [("1.2.3.4:443", 3)] false) helloConn
    { exampleMetadata with DstIP := "1.2.3.4", DNSMode := DNSMode.DNSMapping } 443
    "target.example" (by decide) (by decide) (by decide) (by decide) (by decide) (by decide)
    (by decide)
  ⟨h.2.2.1, h.2.2.2.2.2.2.2⟩

/-- C10: `TCPSniff` leaves the metadata record as it was when the connection
is not a buffered stream, when none of the three eligibility conditions holds,
when the destination port does not parse, when no sniffer of network TCP or
ALL supports the port, when the skip-list counter exceeds 5, when every
sniffer fails or yields an IP literal, when `sniffDomain` returns an error of
any kind, and when the sniffed host is in the `skipSNI` trie. -/
theorem TCPSniff_metadata_unchanged (parseAddrOk : String → Bool)
    (range1 range2 : List (Sniffer × SnifferConfig)) (sd : SnifferDispatcher)
    (conn : NetConn) (m : Metadata)
    (h : conn = NetConn.other
      ∨ (¬ (m.Host = "" ∧ sd.parsePureIp = true) ∧ sd.forceDomain m.Host = false
          ∧ ¬ (m.DNSMode = DNSMode.DNSMapping ∧ sd.forceDnsMapping = true))
      ∨ ParseUint16 m.DstPort = none
      ∨ (∀ port, ParseUint16 m.DstPort = some port → ∀ s ∈ range1,
          (s.1.SupportNetwork = NetWork.TCP ∨ s.1.SupportNetwork = NetWork.ALLNet) →
          s.1.SupportPort port = false)
      ∨ counter sd.skipList (dstKey m) > 5
      ∨ (∀ bufConn, conn = NetConn.buffered bufConn → ∀ s ∈ range2,
          s.1.SniffTCP bufConn.buffered = none
          ∨ ∃ host, s.1.SniffTCP bufConn.buffered = some host ∧ parseAddrOk host = true)
      ∨ (∀ bufConn, conn = NetConn.buffered bufConn →
          (sniffDomain parseAddrOk m range2 bufConn (sd.skipList.Get (dstKey m)).2).err ≠ none)
      ∨ (∀ bufConn, conn = NetConn.buffered bufConn →
          sd.skipSNI (sniffDomain parseAddrOk m range2 bufConn
            (sd.skipList.Get (dstKey m)).2).host = true)) :
    (TCPSniff parseAddrOk range1 range2 sd conn m).metadata = m := by
  rcases TCPSniff_metadata_cases parseAddrOk range1 range2 sd conn m with hsame | hchg
  · exact hsame
  · exfalso
    obtain ⟨bufConn, port, hconn, helig, hport, hwl, hcount, herr, hsni⟩ := hchg
    rcases h with h | h | h | h | h | h | h | h
    · rw [hconn] at h
      exact absurd h (by simp)
    · obtain ⟨h1, h2, h3⟩ := h
      simp only [eligible, h2, Bool.false_eq_true, false_or, Bool.decide_or, Bool.decide_and,
        Bool.or_eq_true, Bool.and_eq_true, decide_eq_true_eq] at helig
      rcases helig with h4 | h4
      · exact h1 h4
      · exact h3 h4
    · rw [hport] at h
      exact absurd h (by simp)
    · have := whitelistLoop_none port range1 (h port hport)
      rw [this] at hwl
      exact absurd hwl (by simp)
    · omega
    · exact sniffDomain_all_fail parseAddrOk m range2 bufConn _ (h bufConn hconn) herr
    · exact h bufConn hconn herr
    · rw [h bufConn hconn] at hsni
      exact absurd hsni (by simp)

/-- C10 on a connection that sent bytes no sniffer recognises, and on a
destination whose counter is 6. -/
theorem TCPSniff_metadata_unchanged_witness :
    (TCPSniff noIP [(tlsSniffer, ⟨true⟩)] [(tlsSniffer, ⟨true⟩)]
        (exampleDispatcher [] true) (NetConn.buffered opaqueConn) exampleMetadata).metadata
      = exampleMetadata
    ∧ (TCPSniff noIP [(tlsSniffer, ⟨true⟩)] [(tlsSniffer, ⟨true⟩)]
        (exampleDispatcher [("9.9.9.9:443", 6)] true) (NetConn.buffered helloConn)
        exampleMetadata).metadata
      = exampleMetadata :=
  ⟨TCPSniff_metadata_unchanged noIP [(tlsSniffer, ⟨true⟩)] [(tlsSniffer, ⟨true⟩)]
      (exampleDispatcher [] true) (NetConn.buffered opaqueConn) exampleMetadata
      (Or.inr (Or.inr (Or.inr (Or.inr (Or.inr (Or.inr (Or.inl (by
        intro bufConn hb
        cases hb
        decide))))))))
   , TCPSniff_metadata_unchanged noIP [(tlsSniffer, ⟨true⟩)] [(tlsSniffer, ⟨true⟩)]
      (exampleDispatcher [("9.9.9.9:443", 6)] true) (NetConn.buffered helloConn) exampleMetadata
      (Or.inr (Or.inr (Or.inr (Or.inr (Or.inl (by decide))))))⟩

/-- C11, as stated, fails: on a metadata record whose `SniffHost` is already
"old.example", a `TCPSniff` call that sniffs "target.example" leaves
`SniffHost = "target.example"`, and so does `replaceDomain`. -/
theorem TCPSniff_sniffHost_overwritten :
    ({ exampleMetadata with SniffHost := "old.example" } : Metadata).SniffHost ≠ ""
    ∧ (TCPSniff noIP [(tlsSniffer, ⟨false⟩)] [(tlsSniffer, ⟨false⟩)]
        (exampleDispatcher [] false) (NetConn.buffered helloConn)
        { exampleMetadata with SniffHost := "old.example" }).metadata.SniffHost
      = "target.example"
    ∧ (replaceDomain { exampleMetadata with SniffHost := "old.example" } "target.example"
        false).SniffHost = "target.example" := by
  decide

/-- C11, amended: for every `TCPSniff` call, on a metadata record whose
`SniffHost` may already be non-empty, `SniffHost` has the same value after the
call as before it unless the call sniffs a host successfully; a call that
sniffs the host `h` successfully sets `SniffHost` to `h` whatever the value
before, and so does every `replaceDomain` call. -/
theorem TCPSniff_sniffHost (parseAddrOk : String → Bool)
    (range1 range2 : List (Sniffer × SnifferConfig)) (sd : SnifferDispatcher)
    (conn : NetConn) (m : Metadata) :
    ((¬ ∃ h, Succeeds parseAddrOk range1 range2 sd conn m h) →
        (TCPSniff parseAddrOk range1 range2 sd conn m).metadata.SniffHost = m.SniffHost)
    ∧ (∀ h, Succeeds parseAddrOk range1 range2 sd conn m h →
        (TCPSniff parseAddrOk range1 range2 sd conn m).metadata.SniffHost = h)
    ∧ (∀ host overrideDest, (replaceDomain m host overrideDest).SniffHost = host) := by
  refine ⟨?_, ?_, ?_⟩
  · intro hno
    rcases TCPSniff_metadata_cases parseAddrOk range1 range2 sd conn m with hsame | hchg
    · rw [hsame]
    · exfalso
      obtain ⟨bufConn, port, hconn, helig, hport, hwl, hcount, herr, hsni⟩ := hchg
      exact hno ⟨_, bufConn, port, hconn, helig, hport, hwl, hcount, herr, rfl, hsni⟩
  · intro h hs
    obtain ⟨bufConn, port, hconn, helig, hport, hwl, hcount, herr, hhost, hsni⟩ := hs
    subst hconn
    rw [TCPSniff_of_success parseAddrOk range1 range2 sd bufConn m port helig hport hwl
      hcount herr (by rw [hhost]; exact hsni), hhost]
    cases hod : (whitelistLoop port range1 false).2 <;> simp [replaceDomain]
  · intro host overrideDest
    cases overrideDest <;> simp [replaceDomain]

/-- C11, amended, on a record whose `SniffHost` is "old.example": a call on a
connection that is not buffered keeps it, a call that sniffs "target.example"
replaces it. -/
theorem TCPSniff_sniffHost_witness :
    (TCPSniff noIP [(tlsSniffer, ⟨false⟩)] [(tlsSniffer, ⟨false⟩)]
        (exampleDispatcher [] false) NetConn.other
        { exampleMetadata with SniffHost := "old.example" }).metadata.SniffHost
      = "old.example"
    ∧ (TCPSniff noIP [(tlsSniffer, ⟨false⟩)] [(tlsSniffer, ⟨false⟩)]
        (exampleDispatcher [] false) (NetConn.buffered helloConn)
        { exampleMetadata with SniffHost := "old.example" }).metadata.SniffHost
      = "target.example" :=
  ⟨(TCPSniff_sniffHost noIP [(tlsSniffer, ⟨false⟩)] [(tlsSniffer, ⟨false⟩)]
      (exampleDispatcher [] false) NetConn.other
      { exampleMetadata with SniffHost := "old.example" }).1
      (by
        rintro ⟨h, bufConn, port, hconn, _⟩
        exact absurd hconn (by simp)),
   (TCPSniff_sniffHost noIP [(tlsSniffer, ⟨false⟩)] [(tlsSniffer, ⟨false⟩)]
      (exampleDispatcher [] false) (NetConn.buffered helloConn)
      { exampleMetadata with SniffHost := "old.example" }).2.1 "target.example"
      ⟨helloConn, 443, rfl, by decide, by decide, by decide, by decide, by decide, by decide,
        by decide⟩⟩

/-- C16: the host and the flag can come from different sniffers. With a TLS
sniffer on port 443 (`OverrideDest` true) and an HTTP sniffer on port 80
(`OverrideDest` false), a plain HTTP request to port 443 is eligible; the host
"plain.example" is found by the HTTP sniffer alone, which does not support
port 443 and whose `OverrideDest` is false, and `metadata.Host` is overwritten
with it all the same, by the flag of the TLS sniffer. -/
theorem TCPSniff_overrideDest_of_other_sniffer :
    (TCPSniff noIP twoSniffers twoSniffers twoSnifferDispatcher (NetConn.buffered getConn)
        exampleMetadata).metadata.Host = "plain.example"
    ∧ exampleMetadata.Host = ""
    ∧ (∀ s ∈ twoSniffers, s.1.SniffTCP getConn.buffered = some "plain.example" →
        s.1.SupportPort 443 = false ∧ s.2.OverrideDest = false)
    ∧ (TCPSniff noIP twoSniffers twoSniffers.reverse twoSnifferDispatcher
        (NetConn.buffered getConn) exampleMetadata).metadata.Host = "plain.example"
    ∧ (TCPSniff noIP twoSniffers.reverse twoSniffers twoSnifferDispatcher
        (NetConn.buffered getConn) exampleMetadata).metadata.Host = "plain.example"
    ∧ (TCPSniff noIP twoSniffers.reverse twoSniffers.reverse twoSnifferDispatcher
        (NetConn.buffered getConn) exampleMetadata).metadata.Host = "plain.example" := by
  decide

end Dispatch

namespace Tls

/-! ## Lemmas and claim on `GetFingerprint` -/

/-- Whatever the chooser picks among its choices, the roll is one of the four
table entries it can pick, a non-nil one. -/
theorem RollFingerprint_mem (pick : String) (h : pick ∈ choices.map Prod.fst) :
    (RollFingerprint pick).1 ∈ rollable := by
  simp only [choices, List.map_cons, List.map_nil, List.mem_cons, List.mem_singleton,
    List.mem_nil_iff, or_false] at h
  rcases h with h | h | h | h <;> subst h <;> decide

theorem rollable_ne_nil (p : UClientHelloID) (h : p ∈ rollable) : p.ClientHelloID ≠ none := by
  simp only [rollable, List.mem_cons, List.mem_singleton, List.mem_nil_iff, or_false] at h
  rcases h with h | h | h | h <;> subst h <;> simp

/-- The table lookup gives the nil pointer exactly for a name that is not a
key of the table. -/
theorem fingerprintsGet_nil_iff (name : String) :
    (fingerprintsGet name).1.ClientHelloID = none ↔ name ∉ Fingerprints.map Prod.fst := by
  unfold fingerprintsGet Fingerprints
  simp only [mapGet, List.map_cons, List.map_nil, List.mem_cons, List.mem_singleton,
    List.mem_nil_iff, or_false]
  by_cases h1 : "chrome" = name
  · subst h1; simp
  by_cases h2 : "firefox" = name
  · subst h2; simp
  by_cases h3 : "safari" = name
  · subst h3; simp
  by_cases h4 : "ios" = name
  · subst h4; simp
  by_cases h5 : "randomized" = name
  · subst h5; simp
  simp [h1, h2, h3, h4, h5, Ne.symm h1, Ne.symm h2, Ne.symm h3, Ne.symm h4, Ne.symm h5]

/-- A call panics exactly when its table lookup gives the nil pointer, for an
argument other than "none" and "random", provided the roll is set after the
first test. -/
theorem panic_iff_of_lookup (name : String) (h1 : name ≠ "none") (h2 : name ≠ "random") :
    (fingerprintsGet name).1.ClientHelloID = none ↔ name ∉ answered := by
  rw [fingerprintsGet_nil_iff]
  simp [answered, h1, h2]

/-- Once `initRandomFingerprint` is set, a call leaves the package variables
alone, answers "random" with it, and panics exactly on an argument that is
neither "none", "random" nor a key of the table. -/
theorem GetFingerprint_settled (st : State) (pick name : String)
    (h : st.initRandomFingerprint.ClientHelloID ≠ none) :
    (GetFingerprint st pick name).2 = st
    ∧ (name = "random" → (GetFingerprint st pick name).1 = Result.ret st.initRandomFingerprint true)
    ∧ ((GetFingerprint st pick name).1 = Result.panic ↔ name ∉ answered) := by
  obtain ⟨v, hv⟩ := Option.ne_none_iff_exists'.mp h
  unfold GetFingerprint
  by_cases h1 : name = "none"
  · subst h1
    refine ⟨by simp, fun hr => absurd hr (by decide), ?_⟩
    simp [answered]
  · by_cases h2 : name = "random"
    · subst h2
      simp [hv, answered]
    · cases hf : (fingerprintsGet name).1.ClientHelloID with
      | none =>
        have hp := (panic_iff_of_lookup name h1 h2).mp hf
        simp [h1, h2, hv, hf, hp]
      | some w =>
        have hp : ¬ name ∉ answered := fun hn =>
          absurd ((panic_iff_of_lookup name h1 h2).mpr hn) (by simp [hf])
        simp [h1, h2, hv, hf, hp]

/-- Before `initRandomFingerprint` is set, a call with "none" changes nothing
and returns; any other call rolls once, answers "random" with the roll, and
panics exactly on an argument that is not a key of the table. -/
theorem GetFingerprint_fresh (st : State) (pick name : String)
    (h : st.initRandomFingerprint.ClientHelloID = none)
    (hpick : pick ∈ choices.map Prod.fst) :
    ((GetFingerprint st pick name).1 = Result.panic ↔ name ∉ answered)
    ∧ ((name = "none" ∧ (GetFingerprint st pick name).2 = st)
      ∨ (name ≠ "none"
        ∧ (GetFingerprint st pick name).2
            = { st with initRandomFingerprint := (RollFingerprint pick).1, rolls := st.rolls + 1 }
        ∧ (name = "random" →
            (GetFingerprint st pick name).1 = Result.ret (RollFingerprint pick).1 true))) := by
  obtain ⟨v, hv⟩ := Option.ne_none_iff_exists'.mp
    (rollable_ne_nil _ (RollFingerprint_mem pick hpick))
  unfold GetFingerprint
  by_cases h1 : name = "none"
  · subst h1
    simp [answered]
  · by_cases h2 : name = "random"
    · subst h2
      simp [h, hv, answered]
    · cases hf : (fingerprintsGet name).1.ClientHelloID with
      | none =>
        have hp := (panic_iff_of_lookup name h1 h2).mp hf
        simp [h1, h2, h, hf, hp]
      | some w =>
        have hp : ¬ name ∉ answered := fun hn =>
          absurd ((panic_iff_of_lookup name h1 h2).mpr hn) (by simp [hf])
        simp [h1, h2, h, hf, hp]

theorem runCalls_settled (calls : List Call) :
    ∀ st : State, st.initRandomFingerprint.ClientHelloID ≠ none →
      (runCalls st calls).2 = st
      ∧ (runCalls st calls).1.length ≤ calls.length
      ∧ ((∀ c ∈ calls, c.recovered = true ∨ c.ClientFingerprint ∈ answered) →
          (runCalls st calls).1.length = calls.length)
      ∧ ∀ x ∈ calls.zip (runCalls st calls).1,
          (x.1.ClientFingerprint = "random" → x.2 = Result.ret st.initRandomFingerprint true)
          ∧ (x.2 = Result.panic ↔ x.1.ClientFingerprint ∉ answered) := by
  induction calls with
  | nil => intro st _; simp [runCalls]
  | cons c rest ih =>
    intro st h
    obtain ⟨hst, hres, hpanic⟩ := GetFingerprint_settled st c.pick c.ClientFingerprint h
    obtain ⟨h1, h2, h3, h4⟩ := ih st h
    by_cases hstop : (GetFingerprint st c.pick c.ClientFingerprint).1 = Result.panic
        ∧ c.recovered = false
    · simp only [runCalls, if_pos hstop, hst]
      refine ⟨trivial, by simp, ?_, ?_⟩
      · intro hall
        rcases hall c (List.mem_cons_self _ _) with hr | hr
        · rw [hstop.2] at hr
          exact absurd hr (by decide)
        · exact absurd hr (hpanic.mp hstop.1)
      · intro x hx
        simp only [List.zip_cons_cons, List.zip_nil_right, List.mem_singleton] at hx
        subst hx
        refine ⟨fun hr => ?_, ?_⟩
        · have := hres hr
          rw [hstop.1] at this
          exact this
        · simp only [true_iff]
          exact hpanic.mp hstop.1
    · simp only [runCalls, if_neg hstop, hst]
      refine ⟨h1, by simp only [List.length_cons]; omega, ?_, ?_⟩
      · intro hall
        simp only [List.length_cons]
        rw [h3 (fun c hc => hall c (List.mem_cons_of_mem _ hc))]
      · intro x hx
        simp only [List.zip_cons_cons, List.mem_cons] at hx
        rcases hx with hx | hx
        · subst hx
          exact ⟨hres, hpanic⟩
        · exact h4 x hx

theorem runCalls_fresh (calls : List Call) :
    ∀ st : State, st.initRandomFingerprint.ClientHelloID = none →
      (∀ c ∈ calls, c.pick ∈ choices.map Prod.fst) →
      (runCalls st calls).2.rolls ≤ st.rolls + 1
      ∧ (runCalls st calls).1.length ≤ calls.length
      ∧ ((∀ c ∈ calls, c.recovered = true ∨ c.ClientFingerprint ∈ answered) →
          (runCalls st calls).1.length = calls.length)
      ∧ ∃ p ∈ rollable, ∀ x ∈ calls.zip (runCalls st calls).1,
          (x.1.ClientFingerprint = "random" → x.2 = Result.ret p true)
          ∧ (x.2 = Result.panic ↔ x.1.ClientFingerprint ∉ answered) := by
  induction calls with
  | nil =>
    intro st _ _
    exact ⟨by simp [runCalls], by simp [runCalls], by simp [runCalls],
      ⟨⟨some HelloID.HelloChrome_Auto⟩, by decide, by simp [runCalls]⟩⟩
  | cons c rest ih =>
    intro st h hpick
    have hrest : ∀ c ∈ rest, c.pick ∈ choices.map Prod.fst :=
      fun c hc => hpick c (List.mem_cons_of_mem _ hc)
    have hc := hpick c (List.mem_cons_self _ _)
    have hmem := RollFingerprint_mem c.pick hc
    obtain ⟨hpanic, hcase⟩ := GetFingerprint_fresh st c.pick c.ClientFingerprint h hc
    by_cases hstop : (GetFingerprint st c.pick c.ClientFingerprint).1 = Result.panic
        ∧ c.recovered = false
    · simp only [runCalls, if_pos hstop]
      refine ⟨?_, by simp, ?_, (RollFingerprint c.pick).1, hmem, ?_⟩
      · rcases hcase with ⟨_, hst⟩ | ⟨_, hst, _⟩
        · rw [hst]; omega
        · rw [hst]
      · intro hall
        rcases hall c (List.mem_cons_self _ _) with hr | hr
        · rw [hstop.2] at hr
          exact absurd hr (by decide)
        · exact absurd hr (hpanic.mp hstop.1)
      · intro x hx
        simp only [List.zip_cons_cons, List.zip_nil_right, List.mem_singleton] at hx
        subst hx
        refine ⟨fun hr => ?_, ?_⟩
        · have hin : c.ClientFingerprint ∈ answered := by
            simp only at hr
            rw [hr]
            decide
          exact absurd hin (hpanic.mp hstop.1)
        · simp only [true_iff]
          exact hpanic.mp hstop.1
    · simp only [runCalls, if_neg hstop]
      rcases hcase with ⟨hn, hst⟩ | ⟨hn, hst, hres⟩
      · obtain ⟨h1, h2, h3, p, hp, h4⟩ := ih st h hrest
        rw [hst]
        refine ⟨h1, by simp only [List.length_cons]; omega, ?_, p, hp, ?_⟩
        · intro hall
          simp only [List.length_cons]
          rw [h3 (fun c hc => hall c (List.mem_cons_of_mem _ hc))]
        · intro x hx
          simp only [List.zip_cons_cons, List.mem_cons] at hx
          rcases hx with hx | hx
          · subst hx
            refine ⟨fun hr => ?_, hpanic⟩
            simp only at hr
            rw [hn] at hr
            exact absurd hr (by decide)
          · exact h4 x hx
      · have hne := rollable_ne_nil _ hmem
        obtain ⟨h1, h2, h3, h4⟩ := runCalls_settled rest
          { st with initRandomFingerprint := (RollFingerprint c.pick).1, rolls := st.rolls + 1 }
          hne
        rw [hst]
        refine ⟨by rw [h1], by simp only [List.length_cons]; omega, ?_,
          (RollFingerprint c.pick).1, hmem, ?_⟩
        · intro hall
          simp only [List.length_cons]
          rw [h3 (fun c hc => hall c (List.mem_cons_of_mem _ hc))]
        · intro x hx
          simp only [List.zip_cons_cons, List.mem_cons] at hx
          rcases hx with hx | hx
          · subst hx
            exact ⟨hres, hpanic⟩
          · exact h4 x hx

/-- C12: for every sequence of `GetFingerprint` calls in one process, with any
arguments and whatever the chooser picks among its choices, whether or not a
panic of a call is recovered, `RollFingerprint` is called at most once, and
there is one profile, a table entry for chrome, safari, ios or firefox, that
every call with "random" that runs returns together with `found = true`; in
particular each such call returns what the first one did. A call panics
exactly when its argument is neither "none", "random" nor a key of the table,
so a call with "random" never does, and every call of the sequence runs unless
such a panic was left unrecovered before it. -/
theorem GetFingerprint_random_stable (calls : List Call)
    (hpick : ∀ c ∈ calls, c.pick ∈ choices.map Prod.fst) :
    (runCalls State.init calls).2.rolls ≤ 1
    ∧ (runCalls State.init calls).1.length ≤ calls.length
    ∧ ((∀ c ∈ calls, c.recovered = true ∨ c.ClientFingerprint ∈ answered) →
        (runCalls State.init calls).1.length = calls.length)
    ∧ ∃ p ∈ rollable,
        (∃ name ∈ ["chrome", "safari", "ios", "firefox"], fingerprintsGet name = (p, true))
        ∧ ∀ x ∈ calls.zip (runCalls State.init calls).1,
            (x.1.ClientFingerprint = "random" → x.2 = Result.ret p true)
            ∧ (x.2 = Result.panic ↔ x.1.ClientFingerprint ∉ answered) := by
  obtain ⟨h1, h2, h3, p, hp, h4⟩ := runCalls_fresh calls State.init rfl hpick
  refine ⟨by simpa [State.init] using h1, h2, h3, p, hp, ?_, h4⟩
  simp only [rollable, List.mem_cons, List.mem_singleton, List.mem_nil_iff, or_false] at hp
  rcases hp with h | h | h | h <;> subst h <;> decide

/-- C12 on the calls "edge" (the chooser picks safari; the call panics and the
caller recovers), "random", "none", "chrome", "random": one roll, made by the
call that panicked, and both "random" calls return the safari entry. -/
theorem GetFingerprint_random_stable_witness :
    (runCalls State.init
        [⟨"safari", "edge", true⟩, ⟨"ios", "random", false⟩, ⟨"chrome", "none", false⟩,
         ⟨"firefox", "chrome", false⟩, ⟨"firefox", "random", false⟩]).2.rolls
      ≤ 1
    ∧ (runCalls State.init
        [⟨"safari", "edge", true⟩, ⟨"ios", "random", false⟩, ⟨"chrome", "none", false⟩,
         ⟨"firefox", "chrome", false⟩, ⟨"firefox", "random", false⟩])
      = ([Result.panic, Result.ret ⟨some HelloID.HelloSafari_Auto⟩ true,
          Result.ret ⟨none⟩ false, Result.ret ⟨some HelloID.HelloChrome_Auto⟩ true,
          Result.ret ⟨some HelloID.HelloSafari_Auto⟩ true],
         { initRandomFingerprint := ⟨some HelloID.HelloSafari_Auto⟩, initUtlsClient := "",
           rolls := 1 })
    ∧ (runCalls State.init
        [⟨"safari", "edge", false⟩, ⟨"ios", "random", false⟩]).1 = [Result.panic] :=
  ⟨(GetFingerprint_random_stable
      [⟨"safari", "edge", true⟩, ⟨"ios", "random", false⟩, ⟨"chrome", "none", false⟩,
       ⟨"firefox", "chrome", false⟩, ⟨"firefox", "random", false⟩]
      (by decide)).1, by decide, by decide⟩

end Tls

namespace Mixed

/-! ## Claim on the mixed listener -/

/-- C13: for every accepted connection, when the one-byte peek succeeds with
the byte `v`, `handleConn` calls exactly one handler, the SOCKS4 one iff
`v = 0x04`, the SOCKS5 one iff `v = 0x05` and the HTTP one for every other
value, and passes it the buffered connection with `v` and the bytes after it
still unread; when the peek fails it calls no handler. -/
theorem handleConn_classifies (conn : TCPConn) :
    (∀ v rest, conn.incoming = v :: rest →
      ∃ h, handleConn conn = [(h, NewBufferedConn { conn with keepAlive := true })]
        ∧ (NewBufferedConn { conn with keepAlive := true }).unread = v :: rest
        ∧ (h = Handler.HandleSocks4 ↔ v = 0x04)
        ∧ (h = Handler.HandleSocks5 ↔ v = 0x05)
        ∧ (h = Handler.HandleConn ↔ (v ≠ 0x04 ∧ v ≠ 0x05)))
    ∧ ((NewBufferedConn { conn with keepAlive := true }).Peek 1 = none → handleConn conn = [])
    ∧ (conn.incoming = [] → handleConn conn = []) := by
  refine ⟨?_, ?_, ?_⟩
  · intro v rest hin
    have hpeek : (NewBufferedConn { conn with keepAlive := true }).Peek 1 = some [v] := by
      simp [NewBufferedConn, BufferedConn.Peek, hin]
    by_cases h4 : v = 0x04
    · subst h4
      refine ⟨Handler.HandleSocks4, ?_, by simp [NewBufferedConn, hin], by simp, by simp, by simp⟩
      simp [handleConn, hpeek, socks4Version]
    · by_cases h5 : v = 0x05
      · subst h5
        refine ⟨Handler.HandleSocks5, ?_, by simp [NewBufferedConn, hin], by simp, by simp,
          by simp⟩
        simp [handleConn, hpeek, socks4Version, socks5Version]
      · refine ⟨Handler.HandleConn, ?_, by simp [NewBufferedConn, hin], by simp [h4],
          by simp [h5], by simp [h4, h5]⟩
        simp [handleConn, hpeek, socks4Version, socks5Version, h4, h5]
  · intro hpeek
    simp [handleConn, hpeek]
  · intro hin
    have hpeek : (NewBufferedConn { conn with keepAlive := true }).Peek 1 = none := by
      simp [NewBufferedConn, BufferedConn.Peek, hin]
    simp [handleConn, hpeek]

/-- C13 on a SOCKS5 greeting, a SOCKS4 request, the start of an HTTP `CONNECT`
and a connection closed before its first byte. -/
theorem handleConn_classifies_witness :
    handleConn ⟨[0x05, 0x01, 0x00], false⟩
      = [(Handler.HandleSocks5, ⟨⟨[0x05, 0x01, 0x00], true⟩, [0x05, 0x01, 0x00]⟩)]
    ∧ handleConn ⟨[0x04, 0x01], false⟩
      = [(Handler.HandleSocks4, ⟨⟨[0x04, 0x01], true⟩, [0x04, 0x01]⟩)]
    ∧ handleConn ⟨[0x43, 0x4F, 0x4E], false⟩
      = [(Handler.HandleConn, ⟨⟨[0x43, 0x4F, 0x4E], true⟩, [0x43, 0x4F, 0x4E]⟩)]
    ∧ handleConn ⟨[], false⟩ = [] := by
  obtain ⟨h5, e5, _, _, hs5, _⟩ :=
    (handleConn_classifies ⟨[0x05, 0x01, 0x00], false⟩).1 0x05 [0x01, 0x00] rfl
  obtain ⟨h4, e4, _, hs4, _, _⟩ :=
    (handleConn_classifies ⟨[0x04, 0x01], false⟩).1 0x04 [0x01] rfl
  obtain ⟨hh, eh, _, _, _, hsh⟩ :=
    (handleConn_classifies ⟨[0x43, 0x4F, 0x4E], false⟩).1 0x43 [0x4F, 0x4E] rfl
  have e0 := (handleConn_classifies ⟨[], false⟩).2.2 rfl
  rw [hs5.mpr rfl] at e5
  rw [hs4.mpr rfl] at e4
  rw [hsh.mpr (by decide)] at eh
  exact ⟨e5, e4, eh, e0⟩

end Mixed

end ClashMeta
